import Mathlib

/-!
The webbsocket example server: the session loop of `HandleWebSocketConnection`.

A shallow embedding of `example/server/main.go`.

The handler reads a frame, decodes it with `json.Unmarshal` into a `Message`,
builds the answer with `fmt.Sprintf` and sends it with `conn.WriteJSON`.  The
library functions the handler calls (`encoding/json`, `fmt.Sprintf`,
`http.Header.Get`, gorilla's `WriteJSON`) are embedded here as far as the
handler exercises them.

Conventions.
* A frame payload is the text of the frame: the bytes read as UTF-8, a byte that
  is not part of a valid encoding read as U+FFFD, which is how `encoding/json`
  reads it inside a string literal (outside one, both are a syntax error).
* Go's `int` is the 64-bit integer of the usual server platforms.
-/

namespace Webbsocket

/-! ## JSON text: the grammar `encoding/json` accepts -/

/-- A parsed JSON value.  A number keeps its literal text, as the decoder of
`encoding/json` does until it knows the Go type it has to store into. -/
inductive JSON where
  | null
  | bool (b : Bool)
  | number (lit : String)
  | string (s : String)
  | array (elems : List JSON)
  | object (members : List (String × JSON))

/-- The four whitespace characters of JSON (`isSpace` in scanner.go). -/
def isSpace (c : Char) : Bool :=
  c == ' ' || c == '\t' || c == '\r' || c == '\n'

/-- Drop leading whitespace. -/
def skipSpace : List Char → List Char
  | [] => []
  | c :: cs => if isSpace c then skipSpace cs else c :: cs

/-- Value of a hexadecimal digit, either case. -/
def hexVal (c : Char) : Option Nat :=
  if '0' ≤ c ∧ c ≤ '9' then some (c.toNat - '0'.toNat)
  else if 'a' ≤ c ∧ c ≤ 'f' then some (c.toNat - 'a'.toNat + 10)
  else if 'A' ≤ c ∧ c ≤ 'F' then some (c.toNat - 'A'.toNat + 10)
  else none

/-- The code unit written by the four hex digits after a backslash-u (`getu4`
in decode.go, called on the text after the two characters of the escape). -/
def getu4 : List Char → Option (Nat × List Char)
  | a :: b :: c :: d :: rest =>
    match hexVal a, hexVal b, hexVal c, hexVal d with
    | some x, some y, some z, some w => some (((x * 16 + y) * 16 + z) * 16 + w, rest)
    | _, _, _, _ => none
  | _ => none

/-- UTF-16 surrogate code units (`utf16.IsSurrogate`). -/
def isSurrogate (r : Nat) : Bool := 0xd800 ≤ r && r < 0xe000

/-- The replacement character U+FFFD. -/
def replacementChar : Char := Char.ofNat 0xfffd

/-- Combine a surrogate pair (`utf16.DecodeRune`); `none` when the two code
units are not a high surrogate followed by a low one. -/
def decodeSurrogates (r1 r2 : Nat) : Option Char :=
  if 0xd800 ≤ r1 ∧ r1 < 0xdc00 ∧ 0xdc00 ≤ r2 ∧ r2 < 0xe000 then
    some (Char.ofNat ((r1 - 0xd800) * 1024 + (r2 - 0xdc00) + 0x10000))
  else none

/-- Decode the escape of a code unit; the input starts right after the
backslash and the u.  A surrogate that is followed by the escape of a matching
low surrogate combines with it; any other surrogate becomes U+FFFD and the
text after it is read again on its own (`unquote` in decode.go). -/
def unescapeUnicode (rest : List Char) : Option (Char × List Char) :=
  match getu4 rest with
  | none => none
  | some (r, rest1) =>
    if isSurrogate r then
      match rest1 with
      | '\\' :: 'u' :: rest2 =>
        match getu4 rest2 with
        | some (r2, rest3) =>
          match decodeSurrogates r r2 with
          | some c => some (c, rest3)
          | none => some (replacementChar, rest1)
        | none => some (replacementChar, rest1)
      | _ => some (replacementChar, rest1)
    else some (Char.ofNat r, rest1)

/-- Decode one escape sequence; the input starts right after the backslash
(the `switch` of `unquote` in decode.go). -/
def unescape : List Char → Option (Char × List Char)
  | [] => none
  | c :: rest =>
    if c = '"' then some ('"', rest)
    else if c = '\\' then some ('\\', rest)
    else if c = '/' then some ('/', rest)
    else if c = 'b' then some (Char.ofNat 8, rest)
    else if c = 'f' then some (Char.ofNat 12, rest)
    else if c = 'n' then some ('\n', rest)
    else if c = 'r' then some ('\r', rest)
    else if c = 't' then some ('\t', rest)
    else if c = 'u' then unescapeUnicode rest
    else none

/-- Read a string literal; the input starts right after the opening quote.
Returns the decoded text and what follows the closing quote.  A raw control
character (below U+0020) is not allowed inside a string. -/
def scanString : Nat → List Char → Option (List Char × List Char)
  | 0, _ => none
  | _ + 1, [] => none
  | fuel + 1, c :: rest =>
    if c = '"' then some ([], rest)
    else if c = '\\' then
      match unescape rest with
      | none => none
      | some (d, rest1) =>
        match scanString fuel rest1 with
        | none => none
        | some (s, r) => some (d :: s, r)
    else if c.toNat < 0x20 then none
    else
      match scanString fuel rest with
      | none => none
      | some (s, r) => some (c :: s, r)

/-- Split off the longest run of decimal digits. -/
def spanDigits : List Char → List Char × List Char
  | [] => ([], [])
  | c :: cs =>
    if c.isDigit then ((spanDigits cs).1.cons c, (spanDigits cs).2) else ([], c :: cs)

/-- Integer part of a number: a single zero, or a non-zero digit followed by
digits. -/
def scanIntPart : List Char → Option (List Char × List Char)
  | [] => none
  | c :: cs =>
    if c = '0' then some (['0'], cs)
    else if c.isDigit then some (c :: (spanDigits cs).1, (spanDigits cs).2)
    else none

/-- Optional fraction: a dot followed by at least one digit. -/
def scanFrac : List Char → Option (List Char × List Char)
  | '.' :: cs =>
    match spanDigits cs with
    | ([], _) => none
    | (ds, rest) => some ('.' :: ds, rest)
  | cs => some ([], cs)

/-- Optional exponent: e or E, an optional sign, at least one digit. -/
def scanExp : List Char → Option (List Char × List Char)
  | [] => some ([], [])
  | c :: cs =>
    if c = 'e' ∨ c = 'E' then
      match cs with
      | [] => none
      | s :: cs1 =>
        if s = '+' ∨ s = '-' then
          match spanDigits cs1 with
          | ([], _) => none
          | (ds, rest) => some (c :: s :: ds, rest)
        else
          match spanDigits (s :: cs1) with
          | ([], _) => none
          | (ds, rest) => some (c :: ds, rest)
    else some ([], c :: cs)

/-- A number literal without its sign: integer part, optional fraction,
optional exponent. -/
def scanUnsigned (cs : List Char) : Option (List Char × List Char) :=
  match scanIntPart cs with
  | none => none
  | some (ip, cs1) =>
    match scanFrac cs1 with
    | none => none
    | some (fp, cs2) =>
      match scanExp cs2 with
      | none => none
      | some (ep, cs3) => some (ip ++ fp ++ ep, cs3)

/-- Read a number literal: an optional minus, then the unsigned literal.
Returns the literal text and the rest. -/
def scanNumber : List Char → Option (List Char × List Char)
  | [] => none
  | c :: rest =>
    if c = '-' then
      match scanUnsigned rest with
      | none => none
      | some (lit, r) => some ('-' :: lit, r)
    else scanUnsigned (c :: rest)

/-- Strip a fixed word from the front of the input. -/
def stripWord : List Char → List Char → Option (List Char)
  | [], cs => some cs
  | _ :: _, [] => none
  | w :: ws, c :: cs => if w = c then stripWord ws cs else none

/-- The deepest nesting of arrays and objects the scanner accepts
(`maxNestingDepth` in scanner.go). -/
def maxNestingDepth : Nat := 10000

/-- Elements of a non-empty array: `pv` reads one value; the input starts at
the first element and the result ends after the closing bracket. -/
def parseElems (pv : List Char → Option (JSON × List Char)) :
    Nat → List Char → Option (List JSON × List Char)
  | 0, _ => none
  | n + 1, cs =>
    match pv cs with
    | none => none
    | some (v, rest) =>
      match skipSpace rest with
      | ',' :: rest1 =>
        match parseElems pv n rest1 with
        | none => none
        | some (vs, r) => some (v :: vs, r)
      | ']' :: rest1 => some ([v], rest1)
      | _ => none

/-- Members of a non-empty object: the input starts at the whitespace before
the first key and the result ends after the closing brace. -/
def parseMembers (pv : List Char → Option (JSON × List Char)) :
    Nat → List Char → Option (List (String × JSON) × List Char)
  | 0, _ => none
  | n + 1, cs =>
    match skipSpace cs with
    | '"' :: rest =>
      match scanString (rest.length + 1) rest with
      | none => none
      | some (k, rest1) =>
        match skipSpace rest1 with
        | ':' :: rest2 =>
          match pv rest2 with
          | none => none
          | some (v, rest3) =>
            match skipSpace rest3 with
            | ',' :: rest4 =>
              match parseMembers pv n rest4 with
              | none => none
              | some (ms, r) => some ((String.mk k, v) :: ms, r)
            | '}' :: rest4 => some ([(String.mk k, v)], rest4)
            | _ => none
        | _ => none
    | _ => none

/-- Read one JSON value, skipping the whitespace before it.  `depth` counts the
arrays and objects already open. -/
def parseValue : Nat → Nat → List Char → Option (JSON × List Char)
  | 0, _, _ => none
  | fuel + 1, depth, cs =>
    match skipSpace cs with
    | [] => none
    | c :: rest =>
      if c = '{' then
        if depth + 1 > maxNestingDepth then none
        else
          match skipSpace rest with
          | '}' :: rest1 => some (JSON.object [], rest1)
          | _ =>
            match parseMembers (parseValue fuel (depth + 1)) (rest.length + 1) rest with
            | none => none
            | some (ms, r) => some (JSON.object ms, r)
      else if c = '[' then
        if depth + 1 > maxNestingDepth then none
        else
          match skipSpace rest with
          | ']' :: rest1 => some (JSON.array [], rest1)
          | _ =>
            match parseElems (parseValue fuel (depth + 1)) (rest.length + 1) rest with
            | none => none
            | some (vs, r) => some (JSON.array vs, r)
      else if c = '"' then
        match scanString (rest.length + 1) rest with
        | none => none
        | some (s, r) => some (JSON.string (String.mk s), r)
      else if c = 't' then
        match stripWord "rue".data rest with
        | none => none
        | some r => some (JSON.bool true, r)
      else if c = 'f' then
        match stripWord "alse".data rest with
        | none => none
        | some r => some (JSON.bool false, r)
      else if c = 'n' then
        match stripWord "ull".data rest with
        | none => none
        | some r => some (JSON.null, r)
      else
        match scanNumber (c :: rest) with
        | none => none
        | some (lit, r) => some (JSON.number (String.mk lit), r)

/-- Parse a whole payload: one value, whitespace around it, nothing else
(`checkValid` in scanner.go followed by the decoder's scan). -/
def parseJSON (data : String) : Option JSON :=
  match parseValue (data.length + 1) 0 data.data with
  | none => none
  | some (v, rest) => if skipSpace rest = [] then some v else none

/-! ## Decoding into `Message` (`json.Unmarshal`) -/

/-- The message of the wire protocol (`type Message struct`).  The Go field
`Type` is written `Type_` here; its JSON key is "string". -/
structure Message where
  Type_ : String
  Content : String
  Timestamp : Int
deriving DecidableEq, Repr

/-- The value of `var receivedMessage Message`. -/
def Message.zero : Message := ⟨"", "", 0⟩

/-- The errors `json.Unmarshal` returns. -/
inductive UnmarshalError where
  | SyntaxError
  | UnmarshalTypeError (value : String) (field : String)
deriving DecidableEq, Repr

/-- The fields of `Message`. -/
inductive Field where
  | Type_
  | Content
  | Timestamp
deriving DecidableEq, Repr

/-- The JSON key of a field, from its struct tag. -/
def Field.name : Field → String
  | .Type_ => "string"
  | .Content => "content"
  | .Timestamp => "timestamp"

/-- The fields in declaration order. -/
def fields : List Field := [.Type_, .Content, .Timestamp]

/-- Case folding of one rune of a key (`foldName` in fold.go): ASCII letters go
to upper case, and the two non-ASCII runes whose simple-folding orbit meets
ASCII, U+017F and U+212A, go to S and K.  Other runes fold among themselves and
never meet an ASCII field name, so they stay in place. -/
def foldRune (c : Char) : Char :=
  if 'a' ≤ c ∧ c ≤ 'z' then Char.ofNat (c.toNat - 32)
  else if c = Char.ofNat 0x17f then 'S'
  else if c = Char.ofNat 0x212a then 'K'
  else c

/-- Fold a key. -/
def foldName (s : String) : String := String.mk (s.data.map foldRune)

/-- The field a key of the inbound object stores into: an exact match of the
tag first, then a match up to case folding. -/
def findField (key : String) : Option Field :=
  match fields.find? (fun f => f.name == key) with
  | some f => some f
  | none => fields.find? (fun f => foldName f.name == foldName key)

/-- One step of reading decimal digits: the value so far times ten plus the
digit, or a failure when the character is not a digit. -/
def digitStep (acc : Option Nat) (c : Char) : Option Nat :=
  match acc with
  | none => none
  | some n => if c.isDigit then some (n * 10 + (c.toNat - '0'.toNat)) else none

/-- Value of a run of decimal digits, `none` when the run is empty or holds
another character. -/
def digitsVal : List Char → Option Nat
  | [] => none
  | c :: cs => (c :: cs).foldl digitStep (some 0)

/-- The call `strconv.ParseInt(s, 10, 64)`: an optional sign, decimal digits,
and the value has to fit in 64 bits. -/
def ParseInt (s : String) : Option Int :=
  match s.data with
  | [] => none
  | c :: ds =>
    if c = '-' then
      match digitsVal ds with
      | none => none
      | some n => if n ≤ 2 ^ 63 then some (-(n : Int)) else none
    else if c = '+' then
      match digitsVal ds with
      | none => none
      | some n => if n < 2 ^ 63 then some (n : Int) else none
    else
      match digitsVal (c :: ds) with
      | none => none
      | some n => if n < 2 ^ 63 then some (n : Int) else none

/-- Whether a JSON value is null. -/
def JSON.isNull : JSON → Bool
  | .null => true
  | _ => false

/-- Whether a JSON value has the type of a field: a string for the kind and
the content, and for the timestamp a number written as an integer that fits
in 64 bits. -/
def wellTyped : Field → JSON → Bool
  | .Type_, .string _ => true
  | .Content, .string _ => true
  | .Timestamp, .number lit => (ParseInt lit).isSome
  | _, _ => false

/-- A field of a message still has the value it has in a fresh `Message`. -/
def fieldIsZero : Field → Message → Prop
  | .Type_, m => m.Type_ = ""
  | .Content, m => m.Content = ""
  | .Timestamp, m => m.Timestamp = 0

/-- Store one JSON value into a field (`literalStore`, and the `array` and
`object` cases of the decoder for a field that is neither).  A null stores
nothing and is no error; a value of another JSON type than the field's is an
`UnmarshalTypeError` and leaves the field as it was. -/
def storeField (f : Field) (v : JSON) (m : Message) : Message × Option UnmarshalError :=
  match v with
  | .null => (m, none)
  | .bool _ => (m, some (.UnmarshalTypeError "bool" f.name))
  | .string s =>
    match f with
    | .Type_ => ({ m with Type_ := s }, none)
    | .Content => ({ m with Content := s }, none)
    | .Timestamp => (m, some (.UnmarshalTypeError "string" f.name))
  | .number lit =>
    match f with
    | .Timestamp =>
      match ParseInt lit with
      | some n => ({ m with Timestamp := n }, none)
      | none => (m, some (.UnmarshalTypeError ("number " ++ lit) f.name))
    | _ => (m, some (.UnmarshalTypeError "number" f.name))
  | .array _ => (m, some (.UnmarshalTypeError "array" f.name))
  | .object _ => (m, some (.UnmarshalTypeError "object" f.name))

/-- Keep the first error (`saveError`). -/
def saveError (saved new : Option UnmarshalError) : Option UnmarshalError :=
  match saved with
  | some e => some e
  | none => new

/-- Decode the members of the inbound object in order.  A key that matches no
field is skipped; decoding goes on after a type error and the first error is
the one reported. -/
def decodeMembers :
    List (String × JSON) → Message → Option UnmarshalError → Message × Option UnmarshalError
  | [], m, e => (m, e)
  | (k, v) :: rest, m, e =>
    match findField k with
    | none => decodeMembers rest m e
    | some f => decodeMembers rest (storeField f v m).1 (saveError e (storeField f v m).2)

/-- The call `json.Unmarshal(p, &v)`: the payload is checked for syntax, then
its value is decoded into the struct.  A top-level null is accepted and stores
nothing; any other value that is not an object is a type error. -/
def Unmarshal (data : String) (v : Message) : Message × Option UnmarshalError :=
  match parseJSON data with
  | none => (v, some .SyntaxError)
  | some .null => (v, none)
  | some (.object ms) => decodeMembers ms v none
  | some (.bool _) => (v, some (.UnmarshalTypeError "bool" ""))
  | some (.string _) => (v, some (.UnmarshalTypeError "string" ""))
  | some (.number _) => (v, some (.UnmarshalTypeError "number" ""))
  | some (.array _) => (v, some (.UnmarshalTypeError "array" ""))

/-! ## Encoding a `Message` (`conn.WriteJSON`) -/

/-- Lower-case hexadecimal digit. -/
def hexDigit (n : Nat) : Char :=
  if n < 10 then Char.ofNat ('0'.toNat + n) else Char.ofNat ('a'.toNat + (n - 10))

/-- The text one character of a string becomes inside a JSON string literal
(`appendString` in encode.go with HTML escaping on, the setting of
`json.NewEncoder`): quote and backslash get a backslash, the five control
characters with a short form use it, other control characters and the three
HTML characters are written as a backslash-u escape, as are U+2028 and U+2029;
everything else is copied.  (The short forms for U+0008 and U+000C are those
of Go 1.22 and later; earlier releases write these two as backslash-u escapes,
which decode to the same characters.) -/
def escapeRune (c : Char) : List Char :=
  if c = '"' ∨ c = '\\' then ['\\', c]
  else if c = Char.ofNat 8 then ['\\', 'b']
  else if c = Char.ofNat 12 then ['\\', 'f']
  else if c = '\n' then ['\\', 'n']
  else if c = '\r' then ['\\', 'r']
  else if c = '\t' then ['\\', 't']
  else if c.toNat < 0x20 ∨ c = '<' ∨ c = '>' ∨ c = '&' then
    ['\\', 'u', '0', '0', hexDigit (c.toNat / 16), hexDigit (c.toNat % 16)]
  else if c = Char.ofNat 0x2028 ∨ c = Char.ofNat 0x2029 then
    ['\\', 'u', '2', '0', '2', hexDigit (c.toNat % 16)]
  else [c]

/-- A Go string as a JSON string literal. -/
def quoteString (s : String) : List Char :=
  '"' :: (s.data.flatMap escapeRune ++ ['"'])

/-- Decimal text of an integer (`strconv.AppendInt(b, n, 10)`). -/
def formatInt (n : Int) : List Char :=
  match n with
  | Int.ofNat k => Nat.toDigits 10 k
  | Int.negSucc k => '-' :: Nat.toDigits 10 (k + 1)

/-- The call `json.Marshal(v)` for a `Message`: an object with the three tagged
keys in declaration order. -/
def Marshal (v : Message) : String :=
  String.mk ("\x7b\"string\":".data ++ quoteString v.Type_ ++ ",\"content\":".data ++
    quoteString v.Content ++ ",\"timestamp\":".data ++ formatInt v.Timestamp ++ ['}'])

/-- The payload `conn.WriteJSON(v)` sends.  gorilla/websocket writes the value
with `json.NewEncoder(w).Encode(v)`, and `Encode` ends the encoding with a
newline character. -/
def WriteJSONPayload (v : Message) : String := Marshal v ++ "\n"

/-! ## `fmt.Sprintf` -/

/-- Join the operands left over after the format is used up, as the EXTRA
report of `fmt` prints them. -/
def extraArgs : List String → String
  | [] => ""
  | [a] => "string=" ++ a
  | a :: rest => "string=" ++ a ++ ", " ++ extraArgs rest

/-- The format interpreter behind `fmt.Sprintf` (`doPrintf` in print.go) for
string operands and the verbs the server uses.  Text outside a verb is copied;
a doubled percent sign is a percent sign; the verbs s and v print the next
operand as it is, without reading it as a format; a verb without an operand
reports it as missing; a percent sign at the very end reports a missing verb;
operands left over at the end are reported.  Any other character after a
percent sign is taken as a verb that does not apply to a string and is
reported as a bad verb: flags, widths, precisions and the further string verbs
q, x and X are not covered. -/
def doPrintf : List Char → List String → String
  | [], [] => ""
  | [], a :: args => "%!(EXTRA " ++ extraArgs (a :: args) ++ ")"
  | ['%'], args => "%!(NOVERB)" ++ doPrintf [] args
  | '%' :: '%' :: rest, args => "%" ++ doPrintf rest args
  | '%' :: c :: rest, [] => "%!" ++ String.singleton c ++ "(MISSING)" ++ doPrintf rest []
  | '%' :: c :: rest, a :: args =>
    if c = 's' ∨ c = 'v' then a ++ doPrintf rest args
    else "%!" ++ String.singleton c ++ "(string=" ++ a ++ ")" ++ doPrintf rest args
  | c :: rest, args => String.singleton c ++ doPrintf rest args

/-- The call `fmt.Sprintf(format, a...)` with string operands. -/
def Sprintf (format : String) (args : List String) : String :=
  doPrintf format.data args

/-! ## The upgrader -/

/-- The header map of a request (`http.Header`): canonical key, values in the
order received. -/
abbrev Header := List (String × List String)

/-- The call `h.Get(key)` for a key already in canonical form, as "Origin" is:
the first value stored under the key, or the empty string when there is
none. -/
def Header.Get (h : Header) (key : String) : String :=
  match h.lookup key with
  | some (v :: _) => v
  | _ => ""

/-- An inbound request as far as the handler looks at it.  `handshake` says
whether the conditions `websocket.Upgrader.Upgrade` checks apart from the
origin hold (a well-formed websocket handshake on a connection that can be
taken over). -/
structure Request where
  Header : Header
  handshake : Bool

/-- The configuration type `websocket.Upgrader`, with the fields the server
sets. -/
structure Upgrader where
  ReadBufferSize : Nat
  WriteBufferSize : Nat
  CheckOrigin : Request → Bool

/-- The package variable `upgrader`. -/
def upgrader : Upgrader where
  ReadBufferSize := 1024
  WriteBufferSize := 1024
  CheckOrigin := fun r => r.Header.Get "Origin" == "http://localhost:3000"

/-- Whether `u.Upgrade(w, r, nil)` returns a connection: the handshake has to
be in order and the origin check has to accept the request. -/
def Upgrader.Upgrade (u : Upgrader) (r : Request) : Bool :=
  r.handshake && u.CheckOrigin r

/-! ## The session loop -/

/-- What the channel delivers to one call of `conn.ReadMessage()`: an error
(peer closed, network error, protocol violation), or a frame.  `writeOk` is the
result the channel gives to a `WriteJSON` issued after this frame. -/
inductive Arrival where
  | readError
  | frame (p : String) (writeOk : Bool)
deriving DecidableEq, Repr

/-- The errors the handler logs. -/
inductive HandlerError where
  | upgrade
  | read
  | decode (e : UnmarshalError)
deriving DecidableEq, Repr

/-- The observable steps of the handler, in program order. -/
inductive Event where
  /-- A call `log.Println(err)`. -/
  | logError (e : HandlerError)
  /-- A call `log.Println` or `log.Printf` with this text. -/
  | log (text : String)
  /-- A call `conn.ReadMessage()` and the payload it returned, `none` for an
  error. -/
  | read (p : Option String)
  /-- A call `conn.WriteJSON(v)` and whether it succeeded. -/
  | write (v : Message) (ok : Bool)
  /-- The deferred `conn.Close()`. -/
  | close
deriving DecidableEq, Repr

/-- Modelled from the spec: the kind tag of a message a client sends.  The
client is not part of the server source; in the first end-to-end scenario of
the spec the client sends the kind "client_msg". -/
def clientTag : String := "client_msg"

/-- The response built for a decoded message (the composite literal
`messageToSend`). -/
def messageToSend (receivedMessage : Message) : Message where
  Type_ := "server_response"
  Timestamp := receivedMessage.Timestamp
  Content := Sprintf "You said: %s. Thanks for the message! - server."
    [receivedMessage.Content]

/-- The `for` loop of the handler run against the arrivals of one channel.
The result is the trace and whether the loop returned; it has not returned
when the arrivals are used up, since `ReadMessage` then waits.  The result of
`WriteJSON` is not looked at. -/
def sessionLoop : List Arrival → List Event × Bool
  | [] => ([], false)
  | .readError :: _ => ([.read none, .logError .read], true)
  | .frame p writeOk :: rest =>
    match Unmarshal p Message.zero with
    | (_, some err) => ([.read (some p), .logError (.decode err)], true)
    | (receivedMessage, none) =>
      (.read (some p)
        :: .log (Sprintf "received message from client: %s" [receivedMessage.Content])
        :: .write (messageToSend receivedMessage) writeOk
        :: (sessionLoop rest).1, (sessionLoop rest).2)

/-- Whether an arrival ends the loop: a read error, or a frame `Unmarshal`
reports an error for. -/
def Arrival.ends : Arrival → Bool
  | .readError => true
  | .frame p _ => (Unmarshal p Message.zero).2.isSome

/-- The message of a write event. -/
def Event.written : Event → Option Message
  | .write v _ => some v
  | _ => none

/-- The messages a trace writes, in order. -/
def writes (trace : List Event) : List Message := trace.filterMap Event.written

/-- The handler: upgrade, then the loop; the deferred close runs when the loop
returns. -/
def HandleWebSocketConnection (r : Request) (arrivals : List Arrival) : List Event × Bool :=
  if upgrader.Upgrade r then
    match sessionLoop arrivals with
    | (trace, true) => (.log "new websocket connection" :: trace ++ [.close], true)
    | (trace, false) => (.log "new websocket connection" :: trace, false)
  else ([.logError .upgrade], true)

/-! ## The fuel of the parser

The parser recurses on a fuel counter.  Every call is given more fuel than its
input has characters; the lemmas below show that a result does not depend on
the fuel once it exceeds the length of the input. -/

theorem skipSpace_length_le (cs : List Char) : (skipSpace cs).length ≤ cs.length := by
  induction cs with
  | nil => simp [skipSpace]
  | cons c cs ih =>
    simp only [skipSpace]
    split_ifs
    · simp only [List.length_cons]; omega
    · exact Nat.le_refl _

theorem getu4_length (cs : List Char) (r : Nat) (rest : List Char)
    (h : getu4 cs = some (r, rest)) : rest.length < cs.length := by
  match cs, h with
  | a :: b :: c :: d :: tl, h =>
    simp only [getu4] at h
    split at h
    · cases h
      simp only [List.length_cons]; omega
    · cases h

theorem unescapeUnicode_length (cs : List Char) (c : Char) (rest : List Char)
    (h : unescapeUnicode cs = some (c, rest)) : rest.length < cs.length := by
  unfold unescapeUnicode at h
  cases hg : getu4 cs with
  | none => simp [hg] at h
  | some p =>
    obtain ⟨r, rest1⟩ := p
    have h1 := getu4_length cs r rest1 hg
    simp only [hg] at h
    split_ifs at h
    · split at h
      · rename_i rest2
        split at h
        · rename_i r2 rest3 hg2
          have h2 := getu4_length rest2 r2 rest3 hg2
          split at h
          · cases h
            simp only [List.length_cons] at h1 ⊢; omega
          · cases h; exact h1
        · cases h; exact h1
      · cases h; exact h1
    · cases h; exact h1

theorem unescape_length (cs : List Char) (c : Char) (rest : List Char)
    (h : unescape cs = some (c, rest)) : rest.length < cs.length := by
  cases cs with
  | nil => simp [unescape] at h
  | cons x tl =>
    simp only [unescape] at h
    split_ifs at h
    all_goals first
      | (cases h; simp only [List.length_cons]; omega)
      | (simp only [List.length_cons]; exact Nat.lt_succ_of_lt (unescapeUnicode_length tl c rest h))

theorem scanString_length (fuel : Nat) (cs s r : List Char)
    (h : scanString fuel cs = some (s, r)) : r.length < cs.length := by
  induction fuel generalizing cs s r with
  | zero => simp [scanString] at h
  | succ n ih =>
    cases cs with
    | nil => simp [scanString] at h
    | cons c rest =>
      simp only [scanString] at h
      split_ifs at h
      · cases h; simp
      · cases hu : unescape rest with
        | none => simp [hu] at h
        | some p =>
          obtain ⟨d, rest1⟩ := p
          have h1 := unescape_length rest d rest1 hu
          simp only [hu] at h
          cases hs : scanString n rest1 with
          | none => simp [hs] at h
          | some q =>
            obtain ⟨s1, r1⟩ := q
            have h2 := ih rest1 s1 r1 hs
            simp only [hs] at h
            cases h
            simp only [List.length_cons]; omega
      · cases hs : scanString n rest with
        | none => simp [hs] at h
        | some q =>
          obtain ⟨s1, r1⟩ := q
          have h2 := ih rest s1 r1 hs
          simp only [hs] at h
          cases h
          simp only [List.length_cons]; omega

theorem scanString_fuel (fuel fuel1 : Nat) (cs : List Char)
    (h : cs.length < fuel) (h1 : cs.length < fuel1) :
    scanString fuel cs = scanString fuel1 cs := by
  induction fuel generalizing fuel1 cs with
  | zero => omega
  | succ n ih =>
    obtain ⟨m, rfl⟩ : ∃ m, fuel1 = m + 1 := ⟨fuel1 - 1, by omega⟩
    cases cs with
    | nil => simp [scanString]
    | cons c rest =>
      simp only [List.length_cons] at h h1
      simp only [scanString]
      split_ifs
      · rfl
      · cases hu : unescape rest with
        | none => rfl
        | some p =>
          obtain ⟨d, rest1⟩ := p
          have hl := unescape_length rest d rest1 hu
          simp only []
          rw [ih m rest1 (by omega) (by omega)]
      · rfl
      · rw [ih m rest (by omega) (by omega)]

theorem spanDigits_length (cs : List Char) : (spanDigits cs).2.length ≤ cs.length := by
  induction cs with
  | nil => simp [spanDigits]
  | cons c cs ih =>
    simp only [spanDigits]
    split_ifs
    · simp only [List.length_cons]; omega
    · exact Nat.le_refl _

theorem scanIntPart_length (cs ip r : List Char) (h : scanIntPart cs = some (ip, r)) :
    r.length < cs.length := by
  cases cs with
  | nil => simp [scanIntPart] at h
  | cons c tl =>
    simp only [scanIntPart] at h
    split_ifs at h
    · cases h; simp
    · cases h
      have := spanDigits_length tl
      simp only [List.length_cons]; omega

theorem spanDigits_match_length (tl : List Char) (pre : List Char) (out r : List Char)
    (h : (match spanDigits tl with
      | ([], _) => none
      | (ds, rest) => some (pre ++ ds, rest)) = some (out, r)) :
    r.length ≤ tl.length := by
  have hs := spanDigits_length tl
  rcases hsp : spanDigits tl with ⟨ds, rest⟩
  rw [hsp] at h hs
  cases ds with
  | nil => cases h
  | cons d ds =>
    simp only [Option.some.injEq, Prod.mk.injEq] at h
    rw [← h.2]
    exact hs

theorem scanFrac_length (cs fp r : List Char) (h : scanFrac cs = some (fp, r)) :
    r.length ≤ cs.length := by
  cases cs with
  | nil => simp only [scanFrac] at h; cases h; exact Nat.le_refl _
  | cons c tl =>
    by_cases hc : c = '.'
    · subst hc
      have h1 : (match spanDigits tl with
          | ([], _) => none
          | (ds, rest) => some (['.'] ++ ds, rest)) = some (fp, r) := h
      have := spanDigits_match_length tl ['.'] fp r h1
      simp only [List.length_cons]; omega
    · have h1 : scanFrac (c :: tl) = some ([], c :: tl) := by
        unfold scanFrac
        split
        · rename_i heq
          simp only [List.cons.injEq] at heq
          exact absurd heq.1 hc
        · rfl
      rw [h1] at h
      cases h
      exact Nat.le_refl _

theorem scanExp_length (cs ep r : List Char) (h : scanExp cs = some (ep, r)) :
    r.length ≤ cs.length := by
  cases cs with
  | nil => simp only [scanExp] at h; cases h; exact Nat.le_refl _
  | cons c tl =>
    simp only [scanExp] at h
    split_ifs at h with hc
    · cases tl with
      | nil => cases h
      | cons s cs1 =>
        simp only at h
        split_ifs at h with hs
        · have h1 : (match spanDigits cs1 with
              | ([], _) => none
              | (ds, rest) => some ([c, s] ++ ds, rest)) = some (ep, r) := h
          have := spanDigits_match_length cs1 [c, s] ep r h1
          simp only [List.length_cons]; omega
        · have h1 : (match spanDigits (s :: cs1) with
              | ([], _) => none
              | (ds, rest) => some ([c] ++ ds, rest)) = some (ep, r) := h
          have := spanDigits_match_length (s :: cs1) [c] ep r h1
          simp only [List.length_cons] at this ⊢; omega
    · cases h; exact Nat.le_refl _

theorem scanUnsigned_length (cs lit r : List Char) (h : scanUnsigned cs = some (lit, r)) :
    r.length < cs.length := by
  unfold scanUnsigned at h
  cases h1 : scanIntPart cs with
  | none => simp [h1] at h
  | some p1 =>
    obtain ⟨ip, cs1⟩ := p1
    have l1 := scanIntPart_length cs ip cs1 h1
    simp only [h1] at h
    cases h2 : scanFrac cs1 with
    | none => simp [h2] at h
    | some p2 =>
      obtain ⟨fp, cs2⟩ := p2
      have l2 := scanFrac_length cs1 fp cs2 h2
      simp only [h2] at h
      cases h3 : scanExp cs2 with
      | none => simp [h3] at h
      | some p3 =>
        obtain ⟨ep, cs3⟩ := p3
        have l3 := scanExp_length cs2 ep cs3 h3
        simp only [h3] at h
        cases h
        omega

theorem scanNumber_length (cs lit r : List Char) (h : scanNumber cs = some (lit, r)) :
    r.length < cs.length := by
  cases cs with
  | nil => simp [scanNumber] at h
  | cons c tl =>
    simp only [scanNumber] at h
    split_ifs at h
    · cases h1 : scanUnsigned tl with
      | none => simp [h1] at h
      | some p =>
        obtain ⟨l, r1⟩ := p
        have := scanUnsigned_length tl l r1 h1
        simp only [h1] at h
        cases h
        simp only [List.length_cons]; omega
    · exact scanUnsigned_length _ lit r h

theorem stripWord_length (w cs r : List Char) (h : stripWord w cs = some r) :
    r.length ≤ cs.length := by
  induction w generalizing cs with
  | nil => simp only [stripWord] at h; cases h; exact Nat.le_refl _
  | cons x w ih =>
    cases cs with
    | nil => simp [stripWord] at h
    | cons c tl =>
      simp only [stripWord] at h
      split_ifs at h
      have := ih tl h
      simp only [List.length_cons]; omega

theorem parseElems_length (pv : List Char → Option (JSON × List Char))
    (hpv : ∀ x v r, pv x = some (v, r) → r.length ≤ x.length)
    (k : Nat) (cs : List Char) (vs : List JSON) (r : List Char)
    (h : parseElems pv k cs = some (vs, r)) : r.length ≤ cs.length := by
  induction k generalizing cs vs r with
  | zero => simp [parseElems] at h
  | succ n ih =>
    simp only [parseElems] at h
    cases h1 : pv cs with
    | none => simp [h1] at h
    | some p =>
      obtain ⟨v, rest⟩ := p
      have l1 := hpv cs v rest h1
      have l2 := skipSpace_length_le rest
      simp only [h1] at h
      split at h
      · rename_i rest1 heq
        rw [heq] at l2
        cases h2 : parseElems pv n rest1 with
        | none => simp [h2] at h
        | some q =>
          obtain ⟨ws, r1⟩ := q
          have l3 := ih rest1 ws r1 h2
          simp only [h2] at h
          cases h
          simp only [List.length_cons] at l2; omega
      · rename_i rest1 heq
        rw [heq] at l2
        cases h
        simp only [List.length_cons] at l2; omega
      · cases h

theorem parseMembers_length (pv : List Char → Option (JSON × List Char))
    (hpv : ∀ x v r, pv x = some (v, r) → r.length ≤ x.length)
    (k : Nat) (cs : List Char) (ms : List (String × JSON)) (r : List Char)
    (h : parseMembers pv k cs = some (ms, r)) : r.length ≤ cs.length := by
  induction k generalizing cs ms r with
  | zero => simp [parseMembers] at h
  | succ n ih =>
    simp only [parseMembers] at h
    have l0 := skipSpace_length_le cs
    split at h
    · rename_i rest heq0
      rw [heq0] at l0
      cases h1 : scanString (rest.length + 1) rest with
      | none => simp [h1] at h
      | some p =>
        obtain ⟨key, rest1⟩ := p
        have l1 := scanString_length _ rest key rest1 h1
        have l2 := skipSpace_length_le rest1
        simp only [h1] at h
        split at h
        · rename_i rest2 heq2
          rw [heq2] at l2
          cases h3 : pv rest2 with
          | none => simp [h3] at h
          | some q =>
            obtain ⟨v, rest3⟩ := q
            have l3 := hpv rest2 v rest3 h3
            have l4 := skipSpace_length_le rest3
            simp only [h3] at h
            split at h
            · rename_i rest4 heq4
              rw [heq4] at l4
              cases h5 : parseMembers pv n rest4 with
              | none => simp [h5] at h
              | some q5 =>
                obtain ⟨ms1, r1⟩ := q5
                have l5 := ih rest4 ms1 r1 h5
                simp only [h5] at h
                cases h
                simp only [List.length_cons] at l0 l2 l4; omega
            · rename_i rest4 heq4
              rw [heq4] at l4
              cases h
              simp only [List.length_cons] at l0 l2 l4; omega
            · cases h
        · cases h
    · cases h

theorem parseValue_length (fuel : Nat) : ∀ (depth : Nat) (cs : List Char) (v : JSON)
    (r : List Char), parseValue fuel depth cs = some (v, r) → r.length ≤ cs.length := by
  induction fuel with
  | zero => intro depth cs v r h; simp [parseValue] at h
  | succ n ih =>
    intro depth cs v r h
    simp only [parseValue] at h
    have l0 := skipSpace_length_le cs
    cases hsk : skipSpace cs with
    | nil => simp [hsk] at h
    | cons c rest =>
      rw [hsk] at l0
      simp only [List.length_cons] at l0
      simp only [hsk] at h
      have lsk := skipSpace_length_le rest
      split_ifs at h with h1 h2 h3 h4 h5 h6 h7 h8
      · split at h
        · rename_i rest1 heq
          rw [heq] at lsk
          cases h
          simp only [List.length_cons] at lsk; omega
        · cases hm : parseMembers (parseValue n (depth + 1)) (rest.length + 1) rest with
          | none => simp [hm] at h
          | some q =>
            obtain ⟨ms, r1⟩ := q
            have := parseMembers_length _ (ih (depth + 1)) _ rest ms r1 hm
            simp only [hm] at h
            cases h
            omega
      · split at h
        · rename_i rest1 heq
          rw [heq] at lsk
          cases h
          simp only [List.length_cons] at lsk; omega
        · cases hm : parseElems (parseValue n (depth + 1)) (rest.length + 1) rest with
          | none => simp [hm] at h
          | some q =>
            obtain ⟨vs, r1⟩ := q
            have := parseElems_length _ (ih (depth + 1)) _ rest vs r1 hm
            simp only [hm] at h
            cases h
            omega
      · cases hs : scanString (rest.length + 1) rest with
        | none => simp [hs] at h
        | some q =>
          obtain ⟨str, r1⟩ := q
          have := scanString_length _ rest str r1 hs
          simp only [hs] at h
          cases h
          omega
      · cases hs : stripWord "rue".data rest with
        | none => simp [hs] at h
        | some r1 =>
          have := stripWord_length _ rest r1 hs
          simp only [hs] at h
          cases h
          omega
      · cases hs : stripWord "alse".data rest with
        | none => simp [hs] at h
        | some r1 =>
          have := stripWord_length _ rest r1 hs
          simp only [hs] at h
          cases h
          omega
      · cases hs : stripWord "ull".data rest with
        | none => simp [hs] at h
        | some r1 =>
          have := stripWord_length _ rest r1 hs
          simp only [hs] at h
          cases h
          omega
      · cases hs : scanNumber (c :: rest) with
        | none => simp [hs] at h
        | some q =>
          obtain ⟨lit, r1⟩ := q
          have := scanNumber_length _ lit r1 hs
          simp only [hs] at h
          cases h
          simp only [List.length_cons] at this; omega

theorem parseElems_congr (pv pv1 : List Char → Option (JSON × List Char))
    (hpv : ∀ x v r, pv x = some (v, r) → r.length ≤ x.length)
    (k : Nat) (cs : List Char) (hag : ∀ x, x.length ≤ cs.length → pv x = pv1 x) :
    parseElems pv k cs = parseElems pv1 k cs := by
  induction k generalizing cs with
  | zero => rfl
  | succ n ih =>
    simp only [parseElems]
    rw [← hag cs (Nat.le_refl _)]
    cases h1 : pv cs with
    | none => rfl
    | some p =>
      obtain ⟨v, rest⟩ := p
      have l1 := hpv cs v rest h1
      have l2 := skipSpace_length_le rest
      simp only []
      split
      · rename_i rest1 heq
        rw [heq] at l2
        simp only [List.length_cons] at l2
        rw [ih rest1 (fun x hx => hag x (by omega))]
      · rfl
      · rfl

theorem parseMembers_congr (pv pv1 : List Char → Option (JSON × List Char))
    (hpv : ∀ x v r, pv x = some (v, r) → r.length ≤ x.length)
    (k : Nat) (cs : List Char) (hag : ∀ x, x.length ≤ cs.length → pv x = pv1 x) :
    parseMembers pv k cs = parseMembers pv1 k cs := by
  induction k generalizing cs with
  | zero => rfl
  | succ n ih =>
    simp only [parseMembers]
    have l0 := skipSpace_length_le cs
    split
    · rename_i rest heq0
      rw [heq0] at l0
      simp only [List.length_cons] at l0
      cases h1 : scanString (rest.length + 1) rest with
      | none => rfl
      | some p =>
        obtain ⟨key, rest1⟩ := p
        have l1 := scanString_length _ rest key rest1 h1
        have l2 := skipSpace_length_le rest1
        simp only []
        split
        · rename_i rest2 heq2
          rw [heq2] at l2
          simp only [List.length_cons] at l2
          rw [← hag rest2 (by omega)]
          cases h3 : pv rest2 with
          | none => rfl
          | some q =>
            obtain ⟨v, rest3⟩ := q
            have l3 := hpv rest2 v rest3 h3
            have l4 := skipSpace_length_le rest3
            simp only []
            split
            · rename_i rest4 heq4
              rw [heq4] at l4
              simp only [List.length_cons] at l4
              rw [ih rest4 (fun x hx => hag x (by omega))]
            · rfl
            · rfl
        · rfl
    · rfl

theorem parseElems_fuel (pv : List Char → Option (JSON × List Char))
    (hpv : ∀ x v r, pv x = some (v, r) → r.length ≤ x.length)
    (k k1 : Nat) (cs : List Char) (h : cs.length < k) (h1 : cs.length < k1) :
    parseElems pv k cs = parseElems pv k1 cs := by
  induction k generalizing k1 cs with
  | zero => omega
  | succ n ih =>
    obtain ⟨m, rfl⟩ : ∃ m, k1 = m + 1 := ⟨k1 - 1, by omega⟩
    simp only [parseElems]
    cases hv : pv cs with
    | none => rfl
    | some p =>
      obtain ⟨v, rest⟩ := p
      have l1 := hpv cs v rest hv
      have l2 := skipSpace_length_le rest
      simp only []
      split
      · rename_i rest1 heq
        rw [heq] at l2
        simp only [List.length_cons] at l2
        rw [ih m rest1 (by omega) (by omega)]
      · rfl
      · rfl

theorem parseMembers_fuel (pv : List Char → Option (JSON × List Char))
    (hpv : ∀ x v r, pv x = some (v, r) → r.length ≤ x.length)
    (k k1 : Nat) (cs : List Char) (h : cs.length < k) (h1 : cs.length < k1) :
    parseMembers pv k cs = parseMembers pv k1 cs := by
  induction k generalizing k1 cs with
  | zero => omega
  | succ n ih =>
    obtain ⟨m, rfl⟩ : ∃ m, k1 = m + 1 := ⟨k1 - 1, by omega⟩
    simp only [parseMembers]
    have l0 := skipSpace_length_le cs
    split
    · rename_i rest heq0
      rw [heq0] at l0
      simp only [List.length_cons] at l0
      cases hs : scanString (rest.length + 1) rest with
      | none => rfl
      | some p =>
        obtain ⟨key, rest1⟩ := p
        have l1 := scanString_length _ rest key rest1 hs
        have l2 := skipSpace_length_le rest1
        simp only []
        split
        · rename_i rest2 heq2
          rw [heq2] at l2
          simp only [List.length_cons] at l2
          cases hv : pv rest2 with
          | none => rfl
          | some q =>
            obtain ⟨v, rest3⟩ := q
            have l3 := hpv rest2 v rest3 hv
            have l4 := skipSpace_length_le rest3
            simp only []
            split
            · rename_i rest4 heq4
              rw [heq4] at l4
              simp only [List.length_cons] at l4
              rw [ih m rest4 (by omega) (by omega)]
            · rfl
            · rfl
        · rfl
    · rfl

theorem parseValue_fuel (fuel : Nat) : ∀ (fuel1 depth : Nat) (cs : List Char),
    cs.length < fuel → cs.length < fuel1 →
    parseValue fuel depth cs = parseValue fuel1 depth cs := by
  induction fuel with
  | zero => intro fuel1 depth cs h; omega
  | succ n ih =>
    intro fuel1 depth cs h h1
    obtain ⟨m, rfl⟩ : ∃ m, fuel1 = m + 1 := ⟨fuel1 - 1, by omega⟩
    simp only [parseValue]
    have l0 := skipSpace_length_le cs
    cases hsk : skipSpace cs with
    | nil => rfl
    | cons c rest =>
      rw [hsk] at l0
      simp only [List.length_cons] at l0
      have hM : parseMembers (parseValue n (depth + 1)) (rest.length + 1) rest =
          parseMembers (parseValue m (depth + 1)) (rest.length + 1) rest :=
        parseMembers_congr _ _ (parseValue_length n (depth + 1)) _ rest
          (fun x hx => ih m (depth + 1) x (by omega) (by omega))
      have hE : parseElems (parseValue n (depth + 1)) (rest.length + 1) rest =
          parseElems (parseValue m (depth + 1)) (rest.length + 1) rest :=
        parseElems_congr _ _ (parseValue_length n (depth + 1)) _ rest
          (fun x hx => ih m (depth + 1) x (by omega) (by omega))
      simp only [hM, hE]

/-- The fuel `parseJSON` gives the parser is enough: with any larger fuel the
result is the same, so a payload is rejected for its text only. -/
theorem parseJSON_fuel (data : String) (fuel : Nat) (h : data.length < fuel) :
    parseValue fuel 0 data.data = parseValue (data.length + 1) 0 data.data :=
  parseValue_fuel fuel (data.length + 1) 0 data.data h (Nat.lt_succ_self _)

/-! ## Reading back what the encoder writes -/

theorem Unmarshal_object {p : String} {ms : List (String × JSON)} (v : Message)
    (h : parseJSON p = some (.object ms)) : Unmarshal p v = decodeMembers ms v none := by
  simp only [Unmarshal, h]

theorem hexVal_hexDigit (k : Nat) (h : k < 16) : hexVal (hexDigit k) = some k := by
  interval_cases k <;> rfl

theorem getu4_hex (a b c d : Nat) (ha : a < 16) (hb : b < 16) (hc : c < 16) (hd : d < 16)
    (rest : List Char) :
    getu4 (hexDigit a :: hexDigit b :: hexDigit c :: hexDigit d :: rest) =
      some (((a * 16 + b) * 16 + c) * 16 + d, rest) := by
  simp only [getu4, hexVal_hexDigit, ha, hb, hc, hd]

theorem unescape_u (a b c d : Nat) (ha : a < 16) (hb : b < 16) (hc : c < 16) (hd : d < 16)
    (rest : List Char) (hs : isSurrogate (((a * 16 + b) * 16 + c) * 16 + d) = false) :
    unescape ('u' :: hexDigit a :: hexDigit b :: hexDigit c :: hexDigit d :: rest) =
      some (Char.ofNat (((a * 16 + b) * 16 + c) * 16 + d), rest) := by
  have h : unescape ('u' :: hexDigit a :: hexDigit b :: hexDigit c :: hexDigit d :: rest) =
      unescapeUnicode (hexDigit a :: hexDigit b :: hexDigit c :: hexDigit d :: rest) := rfl
  rw [h]
  simp only [unescapeUnicode, getu4_hex a b c d ha hb hc hd, hs]
  simp

theorem scanString_backslash (fuel : Nat) (rest tail s r : List Char) (d : Char)
    (hu : unescape rest = some (d, tail)) (h : scanString fuel tail = some (s, r)) :
    scanString (fuel + 1) ('\\' :: rest) = some (d :: s, r) := by
  simp [scanString, hu, h]

theorem scanString_plain (fuel : Nat) (c : Char) (tail s r : List Char)
    (h1 : c ≠ '"') (h2 : c ≠ '\\') (h3 : ¬ c.toNat < 0x20)
    (h : scanString fuel tail = some (s, r)) :
    scanString (fuel + 1) (c :: tail) = some (c :: s, r) := by
  simp [scanString, h1, h2, h3, h]

theorem scanString_escapeRune (c : Char) (fuel : Nat) (tail s r : List Char)
    (h : scanString fuel tail = some (s, r)) :
    scanString (fuel + 1) (escapeRune c ++ tail) = some (c :: s, r) := by
  unfold escapeRune
  split_ifs with h1 h2 h3 h4 h5 h6 h7 h8
  · rcases h1 with rfl | rfl
    · exact scanString_backslash fuel _ tail s r _ rfl h
    · exact scanString_backslash fuel _ tail s r _ rfl h
  · subst h2; exact scanString_backslash fuel _ tail s r _ rfl h
  · subst h3; exact scanString_backslash fuel _ tail s r _ rfl h
  · subst h4; exact scanString_backslash fuel _ tail s r _ rfl h
  · subst h5; exact scanString_backslash fuel _ tail s r _ rfl h
  · subst h6; exact scanString_backslash fuel _ tail s r _ rfl h
  · have hc : c.toNat < 128 := by
      rcases h7 with h7 | rfl | rfl | rfl
      · omega
      all_goals decide
    have hu := unescape_u 0 0 (c.toNat / 16) (c.toNat % 16) (by omega) (by omega) (by omega)
      (by omega) tail (by simp [isSurrogate]; omega)
    have hv : ((0 * 16 + 0) * 16 + c.toNat / 16) * 16 + c.toNat % 16 = c.toNat := by omega
    rw [hv, Char.ofNat_toNat] at hu
    exact scanString_backslash fuel _ tail s r _ hu h
  · rcases h8 with rfl | rfl
    · exact scanString_backslash fuel _ tail s r _ rfl h
    · exact scanString_backslash fuel _ tail s r _ rfl h
  · have h1a : c ≠ '"' := fun hc => h1 (Or.inl hc)
    have h1b : c ≠ '\\' := fun hc => h1 (Or.inr hc)
    have h7a : ¬ c.toNat < 0x20 := fun hc => h7 (Or.inl hc)
    exact scanString_plain fuel c tail s r h1a h1b h7a h

theorem scanString_quote (s : List Char) (fuel : Nat) (tail : List Char) :
    scanString (s.length + fuel + 1) (s.flatMap escapeRune ++ '"' :: tail) = some (s, tail) := by
  induction s with
  | nil => simp [scanString]
  | cons c s ih =>
    rw [List.flatMap_cons, List.append_assoc]
    have : (c :: s).length + fuel + 1 = (s.length + fuel + 1) + 1 := by
      simp only [List.length_cons]; omega
    rw [this]
    exact scanString_escapeRune c _ _ s tail ih

theorem scanString_mono (fuel : Nat) (cs s r : List Char) (h : scanString fuel cs = some (s, r))
    (fuel1 : Nat) (hle : fuel ≤ fuel1) : scanString fuel1 cs = some (s, r) := by
  induction fuel generalizing cs s r fuel1 with
  | zero => simp [scanString] at h
  | succ n ih =>
    obtain ⟨m, rfl⟩ : ∃ m, fuel1 = m + 1 := ⟨fuel1 - 1, by omega⟩
    have hm : n ≤ m := by omega
    cases cs with
    | nil => simp [scanString] at h
    | cons c rest =>
      simp only [scanString] at h ⊢
      split_ifs at h ⊢ with h1 h2 h3
      · exact h
      · cases hu : unescape rest with
        | none => simp [hu] at h
        | some dr =>
          obtain ⟨d, rest1⟩ := dr
          simp only [hu] at h ⊢
          cases hs : scanString n rest1 with
          | none => simp [hs] at h
          | some sr =>
            obtain ⟨s1, r1⟩ := sr
            simp only [hs] at h
            simp only [ih rest1 s1 r1 hs m hm]
            exact h
      · cases hs : scanString n rest with
        | none => simp [hs] at h
        | some sr =>
          obtain ⟨s1, r1⟩ := sr
          simp only [hs] at h
          simp only [ih rest s1 r1 hs m hm]
          exact h

theorem length_le_flatMap_escapeRune (s : List Char) :
    s.length ≤ (s.flatMap escapeRune).length := by
  induction s with
  | nil => simp
  | cons c s ih =>
    have hc : 1 ≤ (escapeRune c).length := by
      unfold escapeRune
      split_ifs <;> simp
    simp only [List.flatMap_cons, List.length_append, List.length_cons]
    omega

theorem digitChar_isDigit (k : Nat) (h : k < 10) :
    (Nat.digitChar k).isDigit = true ∧ (Nat.digitChar k).toNat - '0'.toNat = k ∧
      (0 < k → Nat.digitChar k ≠ '0') ∧ Nat.digitChar k ≠ '-' := by
  interval_cases k <;> decide

theorem toDigitsCore_spec (fuel : Nat) : ∀ (n : Nat) (ds : List Char), n < fuel →
    ∃ l : List Char, Nat.toDigitsCore 10 fuel n ds = l ++ ds ∧
      (∀ c ∈ l, c.isDigit = true) ∧
      (∃ c l1, l = c :: l1 ∧ c ≠ '-' ∧ (c = '0' → n = 0 ∧ l1 = [])) ∧
      (∀ a : Nat, l.foldl digitStep (some a) = some (a * 10 ^ l.length + n)) := by
  induction fuel with
  | zero => intro n ds h; omega
  | succ fuel ih =>
    intro n ds h
    have hd := digitChar_isDigit (n % 10) (Nat.mod_lt _ (by decide))
    by_cases hq : n / 10 = 0
    · have hn : n < 10 := by omega
      have hmod : n % 10 = n := Nat.mod_eq_of_lt hn
      refine ⟨[Nat.digitChar (n % 10)], ?_, ?_, ?_, ?_⟩
      · simp [Nat.toDigitsCore, hq]
      · intro c hc
        rw [List.mem_singleton.mp hc]
        exact hd.1
      · refine ⟨_, [], rfl, hd.2.2.2, fun h0 => ⟨?_, rfl⟩⟩
        by_contra hne
        exact hd.2.2.1 (by omega) h0
      · intro a
        simp only [List.foldl_cons, List.foldl_nil, digitStep, hd.1, hd.2.1, if_true,
          List.length_singleton, pow_one]
        rw [hmod]
    · obtain ⟨l, hl, hdig, ⟨c, l1, hcl, hcm, hc0⟩, hval⟩ :=
        ih (n / 10) (Nat.digitChar (n % 10) :: ds) (by omega)
      refine ⟨l ++ [Nat.digitChar (n % 10)], ?_, ?_, ?_, ?_⟩
      · simp [Nat.toDigitsCore, hq, hl]
      · intro x hx
        rcases List.mem_append.mp hx with hx | hx
        · exact hdig x hx
        · rw [List.mem_singleton.mp hx]
          exact hd.1
      · refine ⟨c, l1 ++ [Nat.digitChar (n % 10)], by simp [hcl], hcm, fun h0 => ?_⟩
        exact absurd (hc0 h0).1 hq
      · intro a
        rw [List.foldl_append, hval a]
        simp only [List.foldl_cons, List.foldl_nil, digitStep, hd.1, hd.2.1, if_true,
          List.length_append, List.length_singleton]
        congr 1
        rw [pow_succ]
        have := Nat.div_add_mod n 10
        nlinarith [Nat.div_add_mod n 10]

theorem toDigits_spec (n : Nat) :
    (∀ c ∈ Nat.toDigits 10 n, c.isDigit = true) ∧
    (∃ c l1, Nat.toDigits 10 n = c :: l1 ∧ c ≠ '-' ∧ (c = '0' → n = 0 ∧ l1 = [])) ∧
    (Nat.toDigits 10 n).foldl digitStep (some 0) = some n := by
  obtain ⟨l, hl, hdig, hhead, hval⟩ := toDigitsCore_spec (n + 1) n [] (by omega)
  have : Nat.toDigits 10 n = l := by
    simp [Nat.toDigits, hl]
  rw [this]
  exact ⟨hdig, hhead, by simpa using hval 0⟩

theorem isDigit_ne {c d : Char} (hc : c.isDigit = true) (hd : d.isDigit = false) : c ≠ d := by
  rintro rfl
  rw [hc] at hd
  exact Bool.noConfusion hd

theorem spanDigits_append (l : List Char) (c : Char) (tail : List Char)
    (hl : ∀ x ∈ l, x.isDigit = true) (hc : c.isDigit = false) :
    spanDigits (l ++ c :: tail) = (l, c :: tail) := by
  induction l with
  | nil => simp [spanDigits, hc]
  | cons x l ih =>
    have hx := hl x (List.mem_cons_self _ _)
    have ih1 := ih (fun y hy => hl y (List.mem_cons_of_mem _ hy))
    simp [spanDigits, hx, ih1]

theorem scanUnsigned_toDigits (n : Nat) (tail : List Char) :
    scanUnsigned (Nat.toDigits 10 n ++ '}' :: tail) = some (Nat.toDigits 10 n, '}' :: tail) := by
  obtain ⟨hdig, ⟨c, l1, hcl, _, hc0⟩, _⟩ := toDigits_spec n
  rw [hcl] at hdig ⊢
  have hcd := hdig c (List.mem_cons_self _ _)
  have hl1 : ∀ x ∈ l1, x.isDigit = true := fun x hx => hdig x (List.mem_cons_of_mem _ hx)
  have hsp := spanDigits_append l1 '}' tail hl1 (by decide)
  have hint : scanIntPart (c :: (l1 ++ '}' :: tail)) = some (c :: l1, '}' :: tail) := by
    by_cases h0 : c = '0'
    · obtain ⟨_, rfl⟩ := hc0 h0
      simp [scanIntPart, h0]
    · simp [scanIntPart, h0, hcd, hsp]
  have hfrac : scanFrac ('}' :: tail) = some ([], '}' :: tail) := rfl
  have hexp : scanExp ('}' :: tail) = some ([], '}' :: tail) := rfl
  rw [List.cons_append, scanUnsigned, hint]
  simp only [hfrac, hexp, List.append_nil]

theorem formatInt_head (t : Int) :
    ∃ c l, formatInt t = c :: l ∧ (c = '-' ∨ c.isDigit = true) := by
  cases t with
  | ofNat k =>
    obtain ⟨hdig, ⟨c, l1, hcl, _, _⟩, _⟩ := toDigits_spec k
    exact ⟨c, l1, hcl, Or.inr (hdig c (by rw [hcl]; exact List.mem_cons_self _ _))⟩
  | negSucc k => exact ⟨'-', _, rfl, Or.inl rfl⟩

theorem scanNumber_formatInt (t : Int) (tail : List Char) :
    scanNumber (formatInt t ++ '}' :: tail) = some (formatInt t, '}' :: tail) := by
  cases t with
  | ofNat k =>
    obtain ⟨hdig, ⟨c, l1, hcl, hcm, _⟩, _⟩ := toDigits_spec k
    have h := scanUnsigned_toDigits k tail
    simp only [formatInt]
    rw [hcl] at h ⊢
    simp only [List.cons_append, scanNumber, hcm, if_false] at h ⊢
    exact h
  | negSucc k =>
    have h := scanUnsigned_toDigits (k + 1) tail
    simp [formatInt, scanNumber, h]

theorem ParseInt_formatInt (t : Int) (hlo : -(2 : Int) ^ 63 ≤ t) (hhi : t < (2 : Int) ^ 63) :
    ParseInt (String.mk (formatInt t)) = some t := by
  cases t with
  | ofNat k =>
    obtain ⟨hdig, ⟨c, l1, hcl, hcm, _⟩, hval⟩ := toDigits_spec k
    have hcd := hdig c (by rw [hcl]; exact List.mem_cons_self _ _)
    have hcp : c ≠ '+' := isDigit_ne hcd (by decide)
    have hk : k < 2 ^ 63 := by
      have : (k : Int) < (2 : Int) ^ 63 := hhi
      exact_mod_cast this
    simp only [formatInt, ParseInt]
    rw [hcl] at hval ⊢
    simp only [hcm, hcp, if_false, digitsVal, hval, hk, if_true]
    rfl
  | negSucc k =>
    obtain ⟨_, _, hval⟩ := toDigits_spec (k + 1)
    obtain ⟨_, ⟨c, l1, hcl, _, _⟩, _⟩ := toDigits_spec (k + 1)
    have hk : k + 1 ≤ 2 ^ 63 := by
      have h1 : -(2 : Int) ^ 63 ≤ Int.negSucc k := hlo
      rw [Int.negSucc_eq] at h1
      have h2 : ((k : Int) + 1) ≤ (2 : Int) ^ 63 := by linarith
      exact_mod_cast h2
    have hdv : digitsVal (Nat.toDigits 10 (k + 1)) = some (k + 1) := by
      rw [hcl] at hval ⊢
      exact hval
    simp only [formatInt, ParseInt, if_true, hdv, hk]
    rw [Int.negSucc_eq]
    push_cast
    rfl

theorem skipSpace_cons (c : Char) (cs : List Char) (h : isSpace c = false) :
    skipSpace (c :: cs) = c :: cs := by
  simp [skipSpace, h]

theorem scanString_quoted (s : String) (tail : List Char) :
    scanString ((s.data.flatMap escapeRune ++ '"' :: tail).length + 1)
      (s.data.flatMap escapeRune ++ '"' :: tail) = some (s.data, tail) := by
  apply scanString_mono _ _ _ _ (scanString_quote s.data 0 tail)
  have := length_le_flatMap_escapeRune s.data
  simp only [List.length_append, List.length_cons]
  omega

theorem parseValue_string (fuel depth : Nat) (s : String) (tail : List Char) :
    parseValue (fuel + 1) depth ('"' :: (s.data.flatMap escapeRune ++ '"' :: tail)) =
      some (.string s, tail) := by
  rw [parseValue, skipSpace_cons _ _ (by decide)]
  simp only [scanString_quoted s tail]
  simp

theorem parseValue_number (fuel depth : Nat) (t : Int) (tail : List Char) :
    parseValue (fuel + 1) depth (formatInt t ++ '}' :: tail) =
      some (.number (String.mk (formatInt t)), '}' :: tail) := by
  have hnum := scanNumber_formatInt t tail
  obtain ⟨c, l, hcl, hc⟩ := formatInt_head t
  rw [hcl] at hnum ⊢
  have hne : isSpace c = false ∧ c ≠ '{' ∧ c ≠ '[' ∧ c ≠ '"' ∧ c ≠ 't' ∧ c ≠ 'f' ∧ c ≠ 'n' := by
    rcases hc with rfl | hd
    · decide
    · exact ⟨by
        cases hs : isSpace c with
        | false => rfl
        | true =>
          simp only [isSpace, Bool.or_eq_true, beq_iff_eq] at hs
          rcases hs with ((rfl | rfl) | rfl) | rfl <;> exact absurd hd (by decide),
        isDigit_ne hd (by decide), isDigit_ne hd (by decide), isDigit_ne hd (by decide),
        isDigit_ne hd (by decide), isDigit_ne hd (by decide), isDigit_ne hd (by decide)⟩
  obtain ⟨h0, h1, h2, h3, h4, h5, h6⟩ := hne
  rw [List.cons_append] at hnum ⊢
  rw [parseValue, skipSpace_cons _ _ h0]
  simp only [h1, h2, h3, h4, h5, h6, if_false, hnum]

theorem parseMembers_cons (pv : List Char → Option (JSON × List Char)) (n : Nat) (k : String)
    (vtext : List Char) (v : JSON) (rest : List Char) (ms : List (String × JSON))
    (r : List Char) (hv : pv vtext = some (v, ',' :: rest))
    (hrest : parseMembers pv n rest = some (ms, r)) :
    parseMembers pv (n + 1) ('"' :: (k.data.flatMap escapeRune ++ '"' :: ':' :: vtext)) =
      some ((k, v) :: ms, r) := by
  rw [parseMembers, skipSpace_cons _ _ (by decide)]
  simp only [scanString_quoted k (':' :: vtext)]
  rw [skipSpace_cons _ _ (by decide)]
  simp only [hv]
  rw [skipSpace_cons _ _ (by decide)]
  simp only [hrest]

theorem parseMembers_last (pv : List Char → Option (JSON × List Char)) (n : Nat) (k : String)
    (vtext : List Char) (v : JSON) (rest : List Char)
    (hv : pv vtext = some (v, '}' :: rest)) :
    parseMembers pv (n + 1) ('"' :: (k.data.flatMap escapeRune ++ '"' :: ':' :: vtext)) =
      some ([(k, v)], rest) := by
  rw [parseMembers, skipSpace_cons _ _ (by decide)]
  simp only [scanString_quoted k (':' :: vtext)]
  rw [skipSpace_cons _ _ (by decide)]
  simp only [hv]
  rw [skipSpace_cons _ _ (by decide)]
  rfl

theorem Marshal_data (v : Message) :
    (Marshal v).data =
      '{' :: '"' :: ("string".data.flatMap escapeRune ++ '"' :: ':' ::
        '"' :: (v.Type_.data.flatMap escapeRune ++ '"' :: ',' ::
        '"' :: ("content".data.flatMap escapeRune ++ '"' :: ':' ::
        '"' :: (v.Content.data.flatMap escapeRune ++ '"' :: ',' ::
        '"' :: ("timestamp".data.flatMap escapeRune ++ '"' :: ':' ::
        (formatInt v.Timestamp ++ '}' :: [])))))) := by
  have h1 : "string".data.flatMap escapeRune = "string".data := by decide
  have h2 : "content".data.flatMap escapeRune = "content".data := by decide
  have h3 : "timestamp".data.flatMap escapeRune = "timestamp".data := by decide
  rw [h1, h2, h3]
  simp [Marshal, quoteString]

theorem parseValue_Marshal (fuel : Nat) (v : Message) (tail : List Char) :
    parseValue (fuel + 2) 0 ((Marshal v).data ++ tail) =
      some (.object [("string", .string v.Type_), ("content", .string v.Content),
        ("timestamp", .number (String.mk (formatInt v.Timestamp)))], tail) := by
  rw [Marshal_data]
  simp only [List.cons_append, List.append_assoc, List.nil_append]
  rw [parseValue, skipSpace_cons _ _ (by decide)]
  have hdepth : ¬ (0 + 1 > maxNestingDepth) := by decide
  simp only [if_true, hdepth, if_false]
  rw [skipSpace_cons _ _ (by decide)]
  generalize hL : ('"' :: ("string".data.flatMap escapeRune ++ '"' :: ':' ::
        '"' :: (v.Type_.data.flatMap escapeRune ++ '"' :: ',' ::
        '"' :: ("content".data.flatMap escapeRune ++ '"' :: ':' ::
        '"' :: (v.Content.data.flatMap escapeRune ++ '"' :: ',' ::
        '"' :: ("timestamp".data.flatMap escapeRune ++ '"' :: ':' ::
        (formatInt v.Timestamp ++ '}' :: tail))))))) = L
  obtain ⟨n, hn⟩ : ∃ n, L.length + 1 = n + 3 := by
    refine ⟨L.length - 2, ?_⟩
    rw [← hL]
    simp only [List.length_cons, List.length_append]
    omega
  have h3 := parseMembers_last (parseValue (fuel + 1) (0 + 1)) n "timestamp"
    (formatInt v.Timestamp ++ '}' :: tail) _ tail (parseValue_number fuel (0 + 1) v.Timestamp tail)
  have h2 := parseMembers_cons (parseValue (fuel + 1) (0 + 1)) (n + 1) "content" _ _ _ _ _
    (parseValue_string fuel (0 + 1) v.Content _) h3
  have h1 := parseMembers_cons (parseValue (fuel + 1) (0 + 1)) (n + 2) "string" _ _ _ _ _
    (parseValue_string fuel (0 + 1) v.Type_ _) h2
  rw [hL] at h1
  rw [hn, h1, ← hL]
  rfl

theorem parseJSON_WriteJSONPayload (v : Message) :
    parseJSON (WriteJSONPayload v) =
      some (.object [("string", .string v.Type_), ("content", .string v.Content),
        ("timestamp", .number (String.mk (formatInt v.Timestamp)))]) := by
  have hdata : (WriteJSONPayload v).data = (Marshal v).data ++ ['\n'] := rfl
  obtain ⟨n, hn⟩ : ∃ n, (WriteJSONPayload v).length + 1 = n + 2 := by
    refine ⟨(WriteJSONPayload v).length - 1, ?_⟩
    have : 0 < (WriteJSONPayload v).length := by
      rw [String.length, hdata]
      simp
    omega
  rw [parseJSON, hn, hdata, parseValue_Marshal n v ['\n']]
  rfl

theorem Unmarshal_WriteJSONPayload (v : Message)
    (hlo : -(2 : Int) ^ 63 ≤ v.Timestamp) (hhi : v.Timestamp < (2 : Int) ^ 63) :
    Unmarshal (WriteJSONPayload v) Message.zero = (v, none) := by
  rw [Unmarshal_object _ (parseJSON_WriteJSONPayload v)]
  have h1 : findField "string" = some .Type_ := by decide
  have h2 : findField "content" = some .Content := by decide
  have h3 : findField "timestamp" = some .Timestamp := by decide
  simp only [decodeMembers, h1, h2, h3, storeField, saveError,
    ParseInt_formatInt v.Timestamp hlo hhi, Message.zero]

theorem ParseInt_range (s : String) (n : Int) (h : ParseInt s = some n) :
    -(2 : Int) ^ 63 ≤ n ∧ n < (2 : Int) ^ 63 := by
  unfold ParseInt at h
  cases hs : s.data with
  | nil => simp [hs] at h
  | cons c ds =>
    simp only [hs] at h
    split_ifs at h with h1 h2
    · cases hd : digitsVal ds with
      | none => simp [hd] at h
      | some k =>
        simp only [hd] at h
        split_ifs at h with hk
        cases h
        have hk1 : (k : Int) ≤ (2 : Int) ^ 63 := by exact_mod_cast hk
        constructor <;> linarith [Int.ofNat_nonneg k]
    · cases hd : digitsVal ds with
      | none => simp [hd] at h
      | some k =>
        simp only [hd] at h
        split_ifs at h with hk
        cases h
        have hk1 : (k : Int) < (2 : Int) ^ 63 := by exact_mod_cast hk
        constructor <;> linarith [Int.ofNat_nonneg k]
    · cases hd : digitsVal (c :: ds) with
      | none => simp [hd] at h
      | some k =>
        simp only [hd] at h
        split_ifs at h with hk
        cases h
        have hk1 : (k : Int) < (2 : Int) ^ 63 := by exact_mod_cast hk
        constructor <;> linarith [Int.ofNat_nonneg k]

theorem storeField_range (f : Field) (v : JSON) (m : Message)
    (hm : -(2 : Int) ^ 63 ≤ m.Timestamp ∧ m.Timestamp < (2 : Int) ^ 63) :
    -(2 : Int) ^ 63 ≤ (storeField f v m).1.Timestamp ∧
      (storeField f v m).1.Timestamp < (2 : Int) ^ 63 := by
  cases v with
  | null => exact hm
  | bool b => exact hm
  | array xs => exact hm
  | object ms => exact hm
  | string s => cases f <;> exact hm
  | number lit =>
    cases f with
    | Type_ => exact hm
    | Content => exact hm
    | Timestamp =>
      cases hp : ParseInt lit with
      | none => simp only [storeField, hp]; exact hm
      | some n => simp only [storeField, hp]; exact ParseInt_range lit n hp

theorem decodeMembers_range (ms : List (String × JSON)) (m : Message)
    (e : Option UnmarshalError)
    (hm : -(2 : Int) ^ 63 ≤ m.Timestamp ∧ m.Timestamp < (2 : Int) ^ 63) :
    -(2 : Int) ^ 63 ≤ (decodeMembers ms m e).1.Timestamp ∧
      (decodeMembers ms m e).1.Timestamp < (2 : Int) ^ 63 := by
  induction ms generalizing m e with
  | nil => exact hm
  | cons kv rest ih =>
    obtain ⟨k, v⟩ := kv
    cases hf : findField k with
    | none => simp only [decodeMembers, hf]; exact ih m e hm
    | some f => simp only [decodeMembers, hf]; exact ih _ _ (storeField_range f v m hm)

theorem Unmarshal_range (p : String) :
    -(2 : Int) ^ 63 ≤ (Unmarshal p Message.zero).1.Timestamp ∧
      (Unmarshal p Message.zero).1.Timestamp < (2 : Int) ^ 63 := by
  have hz : -(2 : Int) ^ 63 ≤ Message.zero.Timestamp ∧
      Message.zero.Timestamp < (2 : Int) ^ 63 := by
    simp [Message.zero]
  unfold Unmarshal
  cases hp : parseJSON p with
  | none => exact hz
  | some v =>
    cases v with
    | object ms => exact decodeMembers_range ms _ none hz
    | null => exact hz
    | bool b => exact hz
    | number lit => exact hz
    | string s => exact hz
    | array xs => exact hz

/-! ## The loop, one frame at a time -/

theorem sessionLoop_frame_ok {p : String} {M : Message} (writeOk : Bool) (rest : List Arrival)
    (h : Unmarshal p Message.zero = (M, none)) :
    sessionLoop (.frame p writeOk :: rest) =
      (.read (some p)
        :: .log (Sprintf "received message from client: %s" [M.Content])
        :: .write (messageToSend M) writeOk
        :: (sessionLoop rest).1, (sessionLoop rest).2) := by
  simp only [sessionLoop, h]

theorem sessionLoop_frame_err {p : String} {err : UnmarshalError} (writeOk : Bool)
    (rest : List Arrival) (h : (Unmarshal p Message.zero).2 = some err) :
    sessionLoop (.frame p writeOk :: rest) = ([.read (some p), .logError (.decode err)], true) := by
  rcases hU : Unmarshal p Message.zero with ⟨m, e⟩
  rw [hU] at h
  simp only at h
  subst h
  simp only [sessionLoop, hU]

theorem Sprintf_reply (c : String) :
    Sprintf "You said: %s. Thanks for the message! - server." [c] =
      "You said: " ++ c ++ ". Thanks for the message! - server." := rfl

/-! ## Response synthesis -/

/-- C1: when a frame decodes into a message `M`, the loop answers it with one
write, of a response whose timestamp is the timestamp of `M`.  Every 64-bit
integer occurs as such a timestamp: the frame that carries it decodes to it,
zero and negative values included. -/
theorem response_timestamp_passthrough (p : String) (M : Message) (writeOk : Bool)
    (rest : List Arrival) (h : Unmarshal p Message.zero = (M, none)) :
    (∃ R : Message,
      (sessionLoop (.frame p writeOk :: rest)).1 =
        .read (some p)
          :: .log (Sprintf "received message from client: %s" [M.Content])
          :: .write R writeOk
          :: (sessionLoop rest).1 ∧
      R.Timestamp = M.Timestamp) ∧
    ∀ (kind content : String) (t : Int), -(2 : Int) ^ 63 ≤ t → t < (2 : Int) ^ 63 →
      Unmarshal (WriteJSONPayload ⟨kind, content, t⟩) Message.zero =
        (⟨kind, content, t⟩, none) ∧
      (messageToSend ⟨kind, content, t⟩).Timestamp = t :=
  ⟨⟨messageToSend M, by rw [sessionLoop_frame_ok writeOk rest h], rfl⟩,
   fun kind content t hlo hhi =>
     ⟨Unmarshal_WriteJSONPayload ⟨kind, content, t⟩ hlo hhi, rfl⟩⟩

theorem response_timestamp_passthrough_witness :
    Unmarshal "\x7b\"string\":\"client_msg\",\"content\":\"hi\",\"timestamp\":-5\x7d" Message.zero = (⟨"client_msg", "hi", -5⟩, none) ∧
    (∃ R : Message,
      (sessionLoop [.frame "\x7b\"string\":\"client_msg\",\"content\":\"hi\",\"timestamp\":-5\x7d" true]).1 =
        .read (some "\x7b\"string\":\"client_msg\",\"content\":\"hi\",\"timestamp\":-5\x7d")
          :: .log (Sprintf "received message from client: %s" ["hi"])
          :: .write R true
          :: (sessionLoop []).1 ∧
      R.Timestamp = -5) ∧
    ∀ (kind content : String) (t : Int), -(2 : Int) ^ 63 ≤ t → t < (2 : Int) ^ 63 →
      Unmarshal (WriteJSONPayload ⟨kind, content, t⟩) Message.zero =
        (⟨kind, content, t⟩, none) ∧
      (messageToSend ⟨kind, content, t⟩).Timestamp = t :=
  ⟨by decide,
   response_timestamp_passthrough "\x7b\"string\":\"client_msg\",\"content\":\"hi\",\"timestamp\":-5\x7d" ⟨"client_msg", "hi", -5⟩ true [] (by decide)⟩

/-- C2: when a frame decodes into a message `M`, the content of the response
the loop writes is "You said: ", then the content of `M`, then
". Thanks for the message! - server."; a message with the same content and
any kind and timestamp gets the same response content; the content "hello",
the empty content and a content holding format verbs come out as written. -/
theorem response_content_template (p : String) (M : Message) (writeOk : Bool)
    (rest : List Arrival) (h : Unmarshal p Message.zero = (M, none)) :
    ∃ R : Message,
      (sessionLoop (.frame p writeOk :: rest)).1 =
        .read (some p)
          :: .log (Sprintf "received message from client: %s" [M.Content])
          :: .write R writeOk
          :: (sessionLoop rest).1 ∧
      R.Content = "You said: " ++ M.Content ++ ". Thanks for the message! - server." ∧
      (∀ (kind : String) (ts : Int), (messageToSend ⟨kind, M.Content, ts⟩).Content = R.Content) ∧
      (messageToSend ⟨M.Type_, "hello", M.Timestamp⟩).Content =
        "You said: hello. Thanks for the message! - server." ∧
      (messageToSend ⟨M.Type_, "", M.Timestamp⟩).Content =
        "You said: . Thanks for the message! - server." ∧
      (messageToSend ⟨M.Type_, "100%s %d%", M.Timestamp⟩).Content =
        "You said: 100%s %d%. Thanks for the message! - server." :=
  ⟨messageToSend M, by rw [sessionLoop_frame_ok writeOk rest h], Sprintf_reply M.Content,
    fun _ _ => rfl, rfl, rfl, rfl⟩

theorem response_content_template_witness :
    Unmarshal "\x7b\"string\":\"client_msg\",\"content\":\"hello\",\"timestamp\":1000\x7d"
        Message.zero = (⟨"client_msg", "hello", 1000⟩, none) ∧
    ∃ R : Message,
      (sessionLoop
          [.frame "\x7b\"string\":\"client_msg\",\"content\":\"hello\",\"timestamp\":1000\x7d"
            true]).1 =
        .read (some "\x7b\"string\":\"client_msg\",\"content\":\"hello\",\"timestamp\":1000\x7d")
          :: .log (Sprintf "received message from client: %s" ["hello"])
          :: .write R true
          :: (sessionLoop []).1 ∧
      R.Content = "You said: " ++ "hello" ++ ". Thanks for the message! - server." ∧
      (∀ (kind : String) (ts : Int), (messageToSend ⟨kind, "hello", ts⟩).Content = R.Content) ∧
      (messageToSend ⟨"client_msg", "hello", 1000⟩).Content =
        "You said: hello. Thanks for the message! - server." ∧
      (messageToSend ⟨"client_msg", "", 1000⟩).Content =
        "You said: . Thanks for the message! - server." ∧
      (messageToSend ⟨"client_msg", "100%s %d%", 1000⟩).Content =
        "You said: 100%s %d%. Thanks for the message! - server." :=
  ⟨by decide,
   response_content_template
     "\x7b\"string\":\"client_msg\",\"content\":\"hello\",\"timestamp\":1000\x7d"
     ⟨"client_msg", "hello", 1000⟩ true [] (by decide)⟩

/-- C9: when a frame decodes into a message `M`, the kind of the response the
loop writes is "server_response"; every decoded message gets this same kind,
also one whose own kind is "server_response"; and it differs from the tag of
a client message. -/
theorem response_kind_constant (p : String) (M : Message) (writeOk : Bool)
    (rest : List Arrival) (h : Unmarshal p Message.zero = (M, none)) :
    ∃ R : Message,
      (sessionLoop (.frame p writeOk :: rest)).1 =
        .read (some p)
          :: .log (Sprintf "received message from client: %s" [M.Content])
          :: .write R writeOk
          :: (sessionLoop rest).1 ∧
      R.Type_ = "server_response" ∧
      (∀ M1 : Message, (messageToSend M1).Type_ = R.Type_) ∧
      (messageToSend ⟨"server_response", M.Content, M.Timestamp⟩).Type_ = "server_response" ∧
      R.Type_ ≠ clientTag :=
  ⟨messageToSend M, by rw [sessionLoop_frame_ok writeOk rest h], rfl, fun _ => rfl, rfl,
    show "server_response" ≠ clientTag by decide⟩

theorem response_kind_constant_witness :
    Unmarshal "\x7b\"string\":\"server_response\",\"content\":\"a\",\"timestamp\":1\x7d" Message.zero =
        (⟨"server_response", "a", 1⟩, none) ∧
    ∃ R : Message,
      (sessionLoop
          [.frame "\x7b\"string\":\"server_response\",\"content\":\"a\",\"timestamp\":1\x7d" true]).1 =
        .read (some "\x7b\"string\":\"server_response\",\"content\":\"a\",\"timestamp\":1\x7d")
          :: .log (Sprintf "received message from client: %s" ["a"])
          :: .write R true
          :: (sessionLoop []).1 ∧
      R.Type_ = "server_response" ∧
      (∀ M1 : Message, (messageToSend M1).Type_ = R.Type_) ∧
      (messageToSend ⟨"server_response", "a", 1⟩).Type_ = "server_response" ∧
      R.Type_ ≠ clientTag :=
  ⟨by decide,
   response_kind_constant
     "\x7b\"string\":\"server_response\",\"content\":\"a\",\"timestamp\":1\x7d"
     ⟨"server_response", "a", 1⟩ true [] (by decide)⟩

/-! ## The origin check -/

/-- C6: the origin check of the upgrader accepts a request exactly when the
value `Header.Get` returns for "Origin" is the string "http://localhost:3000".
A request without the header, with an empty value, with a longer or shorter
value, or with the same letters in another case is refused. -/
theorem checkOrigin_exact (r : Request) :
    (upgrader.CheckOrigin r = true ↔ r.Header.Get "Origin" = "http://localhost:3000") ∧
    upgrader.CheckOrigin ⟨[("Origin", ["http://localhost:3000"])], r.handshake⟩ = true ∧
    upgrader.CheckOrigin ⟨[], r.handshake⟩ = false ∧
    upgrader.CheckOrigin ⟨[("Origin", [])], r.handshake⟩ = false ∧
    upgrader.CheckOrigin ⟨[("Origin", [""])], r.handshake⟩ = false ∧
    upgrader.CheckOrigin ⟨[("Origin", ["http://localhost:3000/"])], r.handshake⟩ = false ∧
    upgrader.CheckOrigin ⟨[("Origin", ["http://localhost:300"])], r.handshake⟩ = false ∧
    upgrader.CheckOrigin ⟨[("Origin", ["HTTP://LOCALHOST:3000"])], r.handshake⟩ = false ∧
    upgrader.CheckOrigin ⟨[("Origin", ["http://Localhost:3000"])], r.handshake⟩ = false ∧
    upgrader.CheckOrigin ⟨[("Host", ["http://localhost:3000"])], r.handshake⟩ = false := by
  refine ⟨?_, ?_, ?_, ?_, ?_, ?_, ?_, ?_, ?_, ?_⟩
  · simp only [upgrader, beq_iff_eq]
  all_goals rfl

/-! ## The loop as a whole -/

/-- C5: a run in which the write of the first response fails.  The handler goes
on: it reads the next frame and writes again, and closes only after the read
error that follows. -/
theorem write_failure_goes_on :
    HandleWebSocketConnection ⟨[("Origin", ["http://localhost:3000"])], true⟩
        [.frame "\x7b\"string\":\"server_response\",\"content\":\"a\",\"timestamp\":1\x7d" false,
         .frame "\x7b\"string\":\"client_msg\",\"content\":\"b\",\"timestamp\":2\x7d" true,
         .readError] =
      ([.log "new websocket connection",
        .read (some "\x7b\"string\":\"server_response\",\"content\":\"a\",\"timestamp\":1\x7d"),
        .log "received message from client: a",
        .write ⟨"server_response", "You said: a. Thanks for the message! - server.", 1⟩ false,
        .read (some "\x7b\"string\":\"client_msg\",\"content\":\"b\",\"timestamp\":2\x7d"),
        .log "received message from client: b",
        .write ⟨"server_response", "You said: b. Thanks for the message! - server.", 2⟩ true,
        .read none,
        .logError .read,
        .close], true) := by
  decide

theorem sessionLoop_frames_ok (ps : List String) (tail : List Arrival)
    (h : ∀ p ∈ ps, (Unmarshal p Message.zero).2 = none) :
    sessionLoop (ps.map (fun p => Arrival.frame p true) ++ tail) =
      (ps.flatMap (fun p =>
          [Event.read (some p),
           Event.log (Sprintf "received message from client: %s"
             [(Unmarshal p Message.zero).1.Content]),
           Event.write (messageToSend (Unmarshal p Message.zero).1) true])
        ++ (sessionLoop tail).1, (sessionLoop tail).2) := by
  induction ps with
  | nil => simp
  | cons p ps ih =>
    have hp : Unmarshal p Message.zero = ((Unmarshal p Message.zero).1, none) :=
      Prod.ext rfl (h p (List.mem_cons_self p ps))
    have ih1 := ih (fun q hq => h q (List.mem_cons_of_mem p hq))
    rw [List.map_cons, List.cons_append, sessionLoop_frame_ok true _ hp, ih1]
    simp [List.flatMap_cons]

theorem sessionLoop_no_close (arrivals : List Arrival) :
    Event.close ∉ (sessionLoop arrivals).1 := by
  induction arrivals with
  | nil => simp [sessionLoop]
  | cons a rest ih =>
    cases a with
    | readError => simp [sessionLoop]
    | frame p w =>
      rcases hU : Unmarshal p Message.zero with ⟨m, e⟩
      cases e with
      | none =>
        rw [sessionLoop_frame_ok w rest hU]
        simpa using ih
      | some err =>
        rw [sessionLoop_frame_err w rest (by rw [hU])]
        simp

theorem sessionLoop_returned (arrivals : List Arrival) :
    (sessionLoop arrivals).2 = arrivals.any Arrival.ends := by
  induction arrivals with
  | nil => simp [sessionLoop]
  | cons a rest ih =>
    cases a with
    | readError => simp [sessionLoop, Arrival.ends]
    | frame p w =>
      rcases hU : Unmarshal p Message.zero with ⟨m, e⟩
      cases e with
      | none =>
        rw [sessionLoop_frame_ok w rest hU]
        simp [Arrival.ends, hU, ih]
      | some err =>
        rw [sessionLoop_frame_err w rest (by rw [hU])]
        simp [Arrival.ends, hU]

/-- C7: a session whose frames all decode and whose writes all succeed, ended
by a read error.  The trace is, frame by frame in arrival order, the read of
the frame, the log line and the write of the response to that frame, then the
failed read, its log line and the close; the messages written are the responses
to the frames, one each, in order, and each is computed from its own frame. -/
theorem responses_in_arrival_order (r : Request) (ps : List String)
    (hup : upgrader.Upgrade r = true)
    (h : ∀ p ∈ ps, (Unmarshal p Message.zero).2 = none) :
    HandleWebSocketConnection r (ps.map (fun p => Arrival.frame p true) ++ [.readError]) =
      (.log "new websocket connection" ::
        (ps.flatMap (fun p =>
          [Event.read (some p),
           Event.log (Sprintf "received message from client: %s"
             [(Unmarshal p Message.zero).1.Content]),
           Event.write (messageToSend (Unmarshal p Message.zero).1) true])
        ++ [.read none, .logError .read, .close]), true) ∧
    writes (HandleWebSocketConnection r
        (ps.map (fun p => Arrival.frame p true) ++ [.readError])).1 =
      ps.map (fun p => messageToSend (Unmarshal p Message.zero).1) := by
  have hrun : HandleWebSocketConnection r
      (ps.map (fun p => Arrival.frame p true) ++ [.readError]) =
      (.log "new websocket connection" ::
        (ps.flatMap (fun p =>
          [Event.read (some p),
           Event.log (Sprintf "received message from client: %s"
             [(Unmarshal p Message.zero).1.Content]),
           Event.write (messageToSend (Unmarshal p Message.zero).1) true])
        ++ [.read none, .logError .read, .close]), true) := by
    simp [HandleWebSocketConnection, hup, sessionLoop_frames_ok ps _ h, sessionLoop]
  refine ⟨hrun, ?_⟩
  rw [hrun]
  clear hrun h
  induction ps with
  | nil => simp [writes, Event.written]
  | cons p ps ih =>
    simp only [writes, List.flatMap_cons, List.map_cons] at ih ⊢
    simp [Event.written] at ih ⊢
    exact ih

theorem responses_in_arrival_order_witness :
    upgrader.Upgrade ⟨[("Origin", ["http://localhost:3000"])], true⟩ = true ∧
    (∀ p ∈ ["\x7b\"string\":\"client_msg\",\"content\":\"one\",\"timestamp\":1\x7d", "\x7b\"string\":\"client_msg\",\"content\":\"two\",\"timestamp\":2\x7d"], (Unmarshal p Message.zero).2 = none) ∧
    writes (HandleWebSocketConnection ⟨[("Origin", ["http://localhost:3000"])], true⟩
        (["\x7b\"string\":\"client_msg\",\"content\":\"one\",\"timestamp\":1\x7d", "\x7b\"string\":\"client_msg\",\"content\":\"two\",\"timestamp\":2\x7d"].map (fun p => Arrival.frame p true) ++ [.readError])).1 =
      ["\x7b\"string\":\"client_msg\",\"content\":\"one\",\"timestamp\":1\x7d", "\x7b\"string\":\"client_msg\",\"content\":\"two\",\"timestamp\":2\x7d"].map (fun p => messageToSend (Unmarshal p Message.zero).1) :=
  ⟨by decide, by decide,
   (responses_in_arrival_order ⟨[("Origin", ["http://localhost:3000"])], true⟩ ["\x7b\"string\":\"client_msg\",\"content\":\"one\",\"timestamp\":1\x7d", "\x7b\"string\":\"client_msg\",\"content\":\"two\",\"timestamp\":2\x7d"]
     (by decide) (by decide)).2⟩

/-- C8: the close of the channel.  When the upgrade fails the handler logs the
error and touches no channel.  When the upgrade succeeds, the loop returns
exactly when an arrival is a read error or a frame that does not decode, and
then the trace ends with the close, which occurs nowhere before: it is
performed once and nothing follows it. -/
theorem close_once_and_last (r : Request) (arrivals : List Arrival) :
    (upgrader.Upgrade r = false →
      HandleWebSocketConnection r arrivals = ([.logError .upgrade], true)) ∧
    (upgrader.Upgrade r = true →
      ((HandleWebSocketConnection r arrivals).2 = arrivals.any Arrival.ends) ∧
      ((HandleWebSocketConnection r arrivals).2 = true →
        ∃ pre, (HandleWebSocketConnection r arrivals).1 = pre ++ [.close] ∧
          Event.close ∉ pre ∧ (HandleWebSocketConnection r arrivals).1.count .close = 1)) := by
  constructor
  · intro hup
    simp [HandleWebSocketConnection, hup]
  · intro hup
    have hret := sessionLoop_returned arrivals
    have hnc := sessionLoop_no_close arrivals
    rcases hS : sessionLoop arrivals with ⟨t, b⟩
    rw [hS] at hret hnc
    simp only at hret hnc
    cases b with
    | false =>
      simp [HandleWebSocketConnection, hup, hS, ← hret]
    | true =>
      refine ⟨by simp [HandleWebSocketConnection, hup, hS, ← hret], fun _ => ?_⟩
      refine ⟨.log "new websocket connection" :: t, ?_, ?_, ?_⟩
      · simp [HandleWebSocketConnection, hup, hS]
      · simpa using hnc
      · simp [HandleWebSocketConnection, hup, hS, List.count_cons, List.count_eq_zero.mpr hnc]

theorem close_once_and_last_witness :
    (upgrader.Upgrade ⟨[("Origin", ["http://evil.example"])], true⟩ = false ∧
      HandleWebSocketConnection ⟨[("Origin", ["http://evil.example"])], true⟩
        [.frame "\x7b\"string\":\"client_msg\",\"content\":\"one\",\"timestamp\":1\x7d" true, .readError] = ([.logError .upgrade], true)) ∧
    (upgrader.Upgrade ⟨[("Origin", ["http://localhost:3000"])], true⟩ = true ∧
      (HandleWebSocketConnection ⟨[("Origin", ["http://localhost:3000"])], true⟩
        [.frame "\x7b\"string\":\"client_msg\",\"content\":\"one\",\"timestamp\":1\x7d" true, .frame "oops" true, .frame "\x7b\"string\":\"client_msg\",\"content\":\"two\",\"timestamp\":2\x7d" true]).2 = true ∧
      ∃ pre, (HandleWebSocketConnection ⟨[("Origin", ["http://localhost:3000"])], true⟩
          [.frame "\x7b\"string\":\"client_msg\",\"content\":\"one\",\"timestamp\":1\x7d" true, .frame "oops" true, .frame "\x7b\"string\":\"client_msg\",\"content\":\"two\",\"timestamp\":2\x7d" true]).1 = pre ++ [.close] ∧
        Event.close ∉ pre ∧
        (HandleWebSocketConnection ⟨[("Origin", ["http://localhost:3000"])], true⟩
          [.frame "\x7b\"string\":\"client_msg\",\"content\":\"one\",\"timestamp\":1\x7d" true, .frame "oops" true, .frame "\x7b\"string\":\"client_msg\",\"content\":\"two\",\"timestamp\":2\x7d" true]).1.count .close = 1) :=
  ⟨⟨by decide,
    (close_once_and_last ⟨[("Origin", ["http://evil.example"])], true⟩
      [.frame "\x7b\"string\":\"client_msg\",\"content\":\"one\",\"timestamp\":1\x7d" true, .readError]).1 (by decide)⟩,
   by decide, by decide,
   ((close_once_and_last ⟨[("Origin", ["http://localhost:3000"])], true⟩
      [.frame "\x7b\"string\":\"client_msg\",\"content\":\"one\",\"timestamp\":1\x7d" true, .frame "oops" true, .frame "\x7b\"string\":\"client_msg\",\"content\":\"two\",\"timestamp\":2\x7d" true]).2 (by decide)).2 (by decide)⟩

/-! ## Decoding: type errors and missing fields -/

theorem storeField_illTyped (f : Field) (v : JSON) (m : Message)
    (hw : wellTyped f v = false) (hn : v.isNull = false) :
    ∃ err, (storeField f v m).2 = some err := by
  cases v with
  | null => simp [JSON.isNull] at hn
  | bool b => exact ⟨_, rfl⟩
  | array xs => exact ⟨_, rfl⟩
  | object ms => exact ⟨_, rfl⟩
  | string s =>
    cases f with
    | Type_ => simp [wellTyped] at hw
    | Content => simp [wellTyped] at hw
    | Timestamp => exact ⟨_, rfl⟩
  | number lit =>
    cases f with
    | Type_ => exact ⟨_, rfl⟩
    | Content => exact ⟨_, rfl⟩
    | Timestamp =>
      have hp : ParseInt lit = none := by
        simpa [wellTyped] using hw
      exact ⟨.UnmarshalTypeError ("number " ++ lit) Field.Timestamp.name, by
        simp [storeField, hp]⟩

theorem storeField_wellTyped (f : Field) (v : JSON) (m : Message)
    (h : wellTyped f v = true ∨ v.isNull = true) : (storeField f v m).2 = none := by
  cases v with
  | null => rfl
  | bool b => simp [wellTyped, JSON.isNull] at h
  | array xs => simp [wellTyped, JSON.isNull] at h
  | object ms => simp [wellTyped, JSON.isNull] at h
  | string s =>
    cases f with
    | Type_ => rfl
    | Content => rfl
    | Timestamp => simp [wellTyped, JSON.isNull] at h
  | number lit =>
    cases f with
    | Type_ => simp [wellTyped, JSON.isNull] at h
    | Content => simp [wellTyped, JSON.isNull] at h
    | Timestamp =>
      have hp : (ParseInt lit).isSome = true := by
        simpa [wellTyped, JSON.isNull] using h
      obtain ⟨n, hn⟩ := Option.isSome_iff_exists.mp hp
      simp [storeField, hn]

theorem storeField_other (f g : Field) (v : JSON) (m : Message) (hfg : g ≠ f)
    (hz : fieldIsZero f m) : fieldIsZero f (storeField g v m).1 := by
  cases v with
  | null => exact hz
  | bool b => exact hz
  | array xs => exact hz
  | object ms => exact hz
  | string s =>
    cases g <;> cases f <;> first | exact absurd rfl hfg | exact hz
  | number lit =>
    cases g with
    | Type_ => exact hz
    | Content => exact hz
    | Timestamp =>
      cases f with
      | Timestamp => exact absurd rfl hfg
      | Type_ =>
        cases hp : ParseInt lit <;> simp only [storeField, hp] <;> exact hz
      | Content =>
        cases hp : ParseInt lit <;> simp only [storeField, hp] <;> exact hz

theorem decodeMembers_error_kept (ms : List (String × JSON)) (m : Message)
    (err : UnmarshalError) : (decodeMembers ms m (some err)).2 = some err := by
  induction ms generalizing m with
  | nil => rfl
  | cons kv rest ih =>
    obtain ⟨k, v⟩ := kv
    cases hf : findField k with
    | none => simp only [decodeMembers, hf]; exact ih m
    | some f => simp only [decodeMembers, hf, saveError]; exact ih _

theorem decodeMembers_illTyped (ms : List (String × JSON)) (m : Message)
    (e : Option UnmarshalError) (k : String) (v : JSON) (f : Field)
    (hmem : (k, v) ∈ ms) (hf : findField k = some f)
    (hw : wellTyped f v = false) (hn : v.isNull = false) :
    ∃ err, (decodeMembers ms m e).2 = some err := by
  induction ms generalizing m e with
  | nil => simp at hmem
  | cons kv rest ih =>
    cases e with
    | some err0 => exact ⟨err0, decodeMembers_error_kept _ m err0⟩
    | none =>
      rcases List.mem_cons.mp hmem with heq | hrest
      · subst heq
        obtain ⟨err, herr⟩ := storeField_illTyped f v m hw hn
        refine ⟨err, ?_⟩
        simp only [decodeMembers, hf, herr, saveError]
        exact decodeMembers_error_kept _ _ err
      · obtain ⟨k1, v1⟩ := kv
        cases hf1 : findField k1 with
        | none => simp only [decodeMembers, hf1]; exact ih m none hrest
        | some f1 => simp only [decodeMembers, hf1]; exact ih _ _ hrest

theorem decodeMembers_wellTyped (ms : List (String × JSON)) (m : Message)
    (h : ∀ kv ∈ ms, ∀ g, findField kv.1 = some g →
      wellTyped g kv.2 = true ∨ kv.2.isNull = true) :
    (decodeMembers ms m none).2 = none := by
  induction ms generalizing m with
  | nil => rfl
  | cons kv rest ih =>
    obtain ⟨k, v⟩ := kv
    have hrest : ∀ kv ∈ rest, ∀ g, findField kv.1 = some g →
        wellTyped g kv.2 = true ∨ kv.2.isNull = true :=
      fun kv hkv => h kv (List.mem_cons_of_mem _ hkv)
    cases hf : findField k with
    | none => simp only [decodeMembers, hf]; exact ih m hrest
    | some f =>
      have hs := storeField_wellTyped f v m (h (k, v) (List.mem_cons_self _ _) f hf)
      simp only [decodeMembers, hf, hs, saveError]
      exact ih _ hrest

theorem decodeMembers_missing (ms : List (String × JSON)) (m : Message)
    (e : Option UnmarshalError) (f : Field)
    (hmiss : ∀ kv ∈ ms, findField kv.1 ≠ some f) (hz : fieldIsZero f m) :
    fieldIsZero f (decodeMembers ms m e).1 := by
  induction ms generalizing m e with
  | nil => exact hz
  | cons kv rest ih =>
    obtain ⟨k, v⟩ := kv
    have hrest : ∀ kv ∈ rest, findField kv.1 ≠ some f :=
      fun kv hkv => hmiss kv (List.mem_cons_of_mem _ hkv)
    cases hf : findField k with
    | none => simp only [decodeMembers, hf]; exact ih m e hrest hz
    | some g =>
      have hgf : g ≠ f := by
        intro hgf
        exact hmiss (k, v) (List.mem_cons_self _ _) (by rw [hf, hgf])
      simp only [decodeMembers, hf]
      exact ih _ _ hrest (storeField_other f g v m hgf hz)

/-- C3, as stated, fails: a frame whose timestamp is null.  The value is not
an integer, yet the frame decodes, with the timestamp left at 0, and the loop
writes a response and reads again. -/
theorem null_timestamp_is_answered :
    parseJSON "\x7b\"string\":\"client_msg\",\"content\":\"hi\",\"timestamp\":null\x7d" = some (.object
        [("string", .string "client_msg"), ("content", .string "hi"), ("timestamp", .null)]) ∧
    findField "timestamp" = some .Timestamp ∧
    wellTyped .Timestamp .null = false ∧
    sessionLoop [.frame "\x7b\"string\":\"client_msg\",\"content\":\"hi\",\"timestamp\":null\x7d" true, .readError] =
      ([.read (some "\x7b\"string\":\"client_msg\",\"content\":\"hi\",\"timestamp\":null\x7d"),
        .log "received message from client: hi",
        .write ⟨"server_response", "You said: hi. Thanks for the message! - server.", 0⟩ true,
        .read none,
        .logError .read], true) :=
  ⟨rfl, by decide, rfl, by decide⟩

/-- C3, amended: a frame that is not parseable as JSON, or that is a JSON
object giving a field a value that is not null and not of the field's type,
ends the loop at that frame: the trace of the loop is the read of the frame
and the log line of the decode error, no write and no further read, and the
loop has returned; the handler then closes the channel. -/
theorem malformed_frame_ends_session (r : Request) (p : String) (writeOk : Bool)
    (rest : List Arrival) (hup : upgrader.Upgrade r = true)
    (h : parseJSON p = none ∨
      ∃ ms k v f, parseJSON p = some (.object ms) ∧ (k, v) ∈ ms ∧ findField k = some f ∧
        wellTyped f v = false ∧ v.isNull = false) :
    ∃ err,
      sessionLoop (.frame p writeOk :: rest) =
        ([.read (some p), .logError (.decode err)], true) ∧
      HandleWebSocketConnection r (.frame p writeOk :: rest) =
        ([.log "new websocket connection", .read (some p), .logError (.decode err), .close],
          true) := by
  have key : ∃ err, (Unmarshal p Message.zero).2 = some err := by
    rcases h with h | ⟨ms, k, v, f, hp, hmem, hf, hw, hn⟩
    · exact ⟨.SyntaxError, by simp only [Unmarshal, h]⟩
    · rw [Unmarshal_object _ hp]
      exact decodeMembers_illTyped ms _ none k v f hmem hf hw hn
  obtain ⟨err, herr⟩ := key
  have hloop := sessionLoop_frame_err writeOk rest herr
  exact ⟨err, hloop, by simp [HandleWebSocketConnection, hup, hloop]⟩

theorem malformed_frame_ends_session_witness :
    upgrader.Upgrade ⟨[("Origin", ["http://localhost:3000"])], true⟩ = true ∧
    (parseJSON "\x7b\"string\":\"client_msg\",\"content\":\"hi\",\"timestamp\":\"12\"\x7d" = none ∨
      ∃ ms k v f, parseJSON "\x7b\"string\":\"client_msg\",\"content\":\"hi\",\"timestamp\":\"12\"\x7d" = some (.object ms) ∧ (k, v) ∈ ms ∧ findField k = some f ∧
        wellTyped f v = false ∧ v.isNull = false) ∧
    ∃ err,
      sessionLoop [.frame "\x7b\"string\":\"client_msg\",\"content\":\"hi\",\"timestamp\":\"12\"\x7d" true, .frame "\x7b\"content\":\"hi\"\x7d" true] =
        ([.read (some "\x7b\"string\":\"client_msg\",\"content\":\"hi\",\"timestamp\":\"12\"\x7d"), .logError (.decode err)], true) ∧
      HandleWebSocketConnection ⟨[("Origin", ["http://localhost:3000"])], true⟩
          [.frame "\x7b\"string\":\"client_msg\",\"content\":\"hi\",\"timestamp\":\"12\"\x7d" true, .frame "\x7b\"content\":\"hi\"\x7d" true] =
        ([.log "new websocket connection", .read (some "\x7b\"string\":\"client_msg\",\"content\":\"hi\",\"timestamp\":\"12\"\x7d"), .logError (.decode err), .close],
          true) :=
  have hyp : parseJSON "\x7b\"string\":\"client_msg\",\"content\":\"hi\",\"timestamp\":\"12\"\x7d" = none ∨
      ∃ ms k v f, parseJSON "\x7b\"string\":\"client_msg\",\"content\":\"hi\",\"timestamp\":\"12\"\x7d" = some (.object ms) ∧ (k, v) ∈ ms ∧ findField k = some f ∧
        wellTyped f v = false ∧ v.isNull = false :=
    Or.inr ⟨[("string", .string "client_msg"), ("content", .string "hi"),
        ("timestamp", .string "12")], "timestamp", .string "12", .Timestamp, rfl,
      by simp, by decide, rfl, rfl⟩
  ⟨by decide, hyp,
   malformed_frame_ends_session ⟨[("Origin", ["http://localhost:3000"])], true⟩ "\x7b\"string\":\"client_msg\",\"content\":\"hi\",\"timestamp\":\"12\"\x7d" true
     [.frame "\x7b\"content\":\"hi\"\x7d" true] (by decide) hyp⟩

/-- C4, as stated, fails: the empty object and an object with only a content
are well-formed objects that miss fields; both decode, with the missing fields
at their zero values, and the loop writes a response to each. -/
theorem object_missing_fields_is_answered :
    parseJSON "\x7b\x7d" = some (.object []) ∧
    Unmarshal "\x7b\x7d" Message.zero = (⟨"", "", 0⟩, none) ∧
    parseJSON "\x7b\"content\":\"hi\"\x7d" = some (.object [("content", .string "hi")]) ∧
    Unmarshal "\x7b\"content\":\"hi\"\x7d" Message.zero = (⟨"", "hi", 0⟩, none) ∧
    sessionLoop [.frame "\x7b\x7d" true, .frame "\x7b\"content\":\"hi\"\x7d" true, .readError] =
      ([.read (some "\x7b\x7d"),
        .log "received message from client: ",
        .write ⟨"server_response", "You said: . Thanks for the message! - server.", 0⟩ true,
        .read (some "\x7b\"content\":\"hi\"\x7d"),
        .log "received message from client: hi",
        .write ⟨"server_response", "You said: hi. Thanks for the message! - server.", 0⟩ true,
        .read none,
        .logError .read], true) :=
  ⟨rfl, by decide, rfl, by decide, by decide⟩

/-- C4, amended: in a frame that is a well-formed JSON object, a field no key
of the object matches is left at its zero value (the empty string, or 0) and
is no decode error; when the members that do match a field are null or of the
field's type, the frame decodes and the loop answers it and goes on. -/
theorem missing_field_keeps_zero (p : String) (ms : List (String × JSON)) (f : Field)
    (writeOk : Bool) (rest : List Arrival)
    (hp : parseJSON p = some (.object ms))
    (hmiss : ∀ kv ∈ ms, findField kv.1 ≠ some f)
    (hrest : ∀ kv ∈ ms, ∀ g, findField kv.1 = some g →
      wellTyped g kv.2 = true ∨ kv.2.isNull = true) :
    fieldIsZero f (Unmarshal p Message.zero).1 ∧
    (Unmarshal p Message.zero).2 = none ∧
    sessionLoop (.frame p writeOk :: rest) =
      (.read (some p)
        :: .log (Sprintf "received message from client: %s"
            [(Unmarshal p Message.zero).1.Content])
        :: .write (messageToSend (Unmarshal p Message.zero).1) writeOk
        :: (sessionLoop rest).1, (sessionLoop rest).2) := by
  have hz : fieldIsZero f Message.zero := by cases f <;> rfl
  have h1 : fieldIsZero f (Unmarshal p Message.zero).1 := by
    rw [Unmarshal_object _ hp]
    exact decodeMembers_missing ms _ none f hmiss hz
  have h2 : (Unmarshal p Message.zero).2 = none := by
    rw [Unmarshal_object _ hp]
    exact decodeMembers_wellTyped ms _ hrest
  exact ⟨h1, h2, sessionLoop_frame_ok writeOk rest (Prod.ext rfl h2)⟩

theorem missing_field_keeps_zero_witness :
    parseJSON "\x7b\"content\":\"hi\"\x7d" = some (.object [("content", .string "hi")]) ∧
    (∀ kv ∈ [("content", JSON.string "hi")], findField kv.1 ≠ some .Timestamp) ∧
    (∀ kv ∈ [("content", JSON.string "hi")], ∀ g, findField kv.1 = some g →
      wellTyped g kv.2 = true ∨ kv.2.isNull = true) ∧
    fieldIsZero .Timestamp (Unmarshal "\x7b\"content\":\"hi\"\x7d" Message.zero).1 ∧
    (Unmarshal "\x7b\"content\":\"hi\"\x7d" Message.zero).2 = none ∧
    sessionLoop [.frame "\x7b\"content\":\"hi\"\x7d" false] =
      (.read (some "\x7b\"content\":\"hi\"\x7d")
        :: .log (Sprintf "received message from client: %s"
            [(Unmarshal "\x7b\"content\":\"hi\"\x7d" Message.zero).1.Content])
        :: .write (messageToSend (Unmarshal "\x7b\"content\":\"hi\"\x7d" Message.zero).1) false
        :: (sessionLoop []).1, (sessionLoop []).2) :=
  have h1 : ∀ kv ∈ [("content", JSON.string "hi")], findField kv.1 ≠ some .Timestamp := by
    intro kv hkv
    rw [List.mem_singleton.mp hkv]
    decide
  have h2 : ∀ kv ∈ [("content", JSON.string "hi")], ∀ g, findField kv.1 = some g →
      wellTyped g kv.2 = true ∨ kv.2.isNull = true := by
    intro kv hkv g hg
    rw [List.mem_singleton.mp hkv] at hg ⊢
    have hc : findField "content" = some .Content := by decide
    rw [show (("content", JSON.string "hi") : String × JSON).1 = "content" from rfl, hc] at hg
    cases hg
    exact Or.inl rfl
  ⟨rfl, h1, h2, missing_field_keeps_zero "\x7b\"content\":\"hi\"\x7d" [("content", .string "hi")] .Timestamp false []
    rfl h1 h2⟩

/-! ## The wire format -/

/-- C10, as stated, fails: for the frame of the first end-to-end scenario the
payload the server writes is the expected JSON text followed by a newline
character, so it is not exactly that text. -/
theorem response_payload_ends_with_newline :
    sessionLoop [.frame "\x7b\"string\":\"client_msg\",\"content\":\"hello\",\"timestamp\":1000\x7d" true] =
      ([.read (some "\x7b\"string\":\"client_msg\",\"content\":\"hello\",\"timestamp\":1000\x7d"),
        .log "received message from client: hello",
        .write ⟨"server_response", "You said: hello. Thanks for the message! - server.",
          1000⟩ true], false) ∧
    WriteJSONPayload
        ⟨"server_response", "You said: hello. Thanks for the message! - server.", 1000⟩ =
      "\x7b\"string\":\"server_response\",\"content\":\"You said: hello. Thanks for the message! - server.\",\"timestamp\":1000\x7d\n" ∧
    WriteJSONPayload
        ⟨"server_response", "You said: hello. Thanks for the message! - server.", 1000⟩ ≠
      "\x7b\"string\":\"server_response\",\"content\":\"You said: hello. Thanks for the message! - server.\",\"timestamp\":1000\x7d" := by
  refine ⟨by decide, by decide, by decide⟩

/-- C10, amended: when a frame decodes into a message `M`, the payload the
server writes is the JSON text of the response followed by one newline; read
as JSON it is an object with exactly the keys "string", "content" and
"timestamp", in this order, holding the kind "server_response", the response
content and the timestamp of `M`; decoding it gives the response back.  The
kind is read from the key "string": a key "type" matches no field and is
skipped.  For the frame of the first end-to-end scenario the payload is the
expected text and a newline. -/
theorem wire_format (p : String) (M : Message) (writeOk : Bool) (rest : List Arrival)
    (h : Unmarshal p Message.zero = (M, none)) :
    ∃ R : Message,
      (sessionLoop (.frame p writeOk :: rest)).1 =
        .read (some p)
          :: .log (Sprintf "received message from client: %s" [M.Content])
          :: .write R writeOk
          :: (sessionLoop rest).1 ∧
      WriteJSONPayload R = Marshal R ++ "\n" ∧
      parseJSON (WriteJSONPayload R) = some (.object
        [("string", .string "server_response"),
         ("content", .string ("You said: " ++ M.Content ++ ". Thanks for the message! - server.")),
         ("timestamp", .number (String.mk (formatInt M.Timestamp)))]) ∧
      Unmarshal (WriteJSONPayload R) Message.zero = (R, none) ∧
      findField "string" = some .Type_ ∧
      findField "type" = none ∧
      Unmarshal "\x7b\"type\":\"client_msg\",\"content\":\"hello\",\"timestamp\":1000\x7d" Message.zero = (⟨"", "hello", 1000⟩, none) ∧
      Unmarshal "\x7b\"string\":\"client_msg\",\"content\":\"hello\",\"timestamp\":1000\x7d" Message.zero = (⟨"client_msg", "hello", 1000⟩, none) ∧
      WriteJSONPayload (messageToSend ⟨"client_msg", "hello", 1000⟩) = "\x7b\"string\":\"server_response\",\"content\":\"You said: hello. Thanks for the message! - server.\",\"timestamp\":1000\x7d\n" := by
  have hr : -(2 : Int) ^ 63 ≤ M.Timestamp ∧ M.Timestamp < (2 : Int) ^ 63 := by
    have := Unmarshal_range p
    rw [h] at this
    exact this
  refine ⟨messageToSend M, by rw [sessionLoop_frame_ok writeOk rest h], rfl, ?_, ?_,
    by decide, by decide, by decide, by decide, by decide⟩
  · rw [parseJSON_WriteJSONPayload]
    rfl
  · exact Unmarshal_WriteJSONPayload (messageToSend M) hr.1 hr.2

theorem wire_format_witness :
    Unmarshal "\x7b\"string\":\"client_msg\",\"content\":\"hello\",\"timestamp\":1000\x7d" Message.zero = (⟨"client_msg", "hello", 1000⟩, none) ∧
    ∃ R : Message,
      (sessionLoop [.frame "\x7b\"string\":\"client_msg\",\"content\":\"hello\",\"timestamp\":1000\x7d" true]).1 =
        .read (some "\x7b\"string\":\"client_msg\",\"content\":\"hello\",\"timestamp\":1000\x7d")
          :: .log (Sprintf "received message from client: %s" ["hello"])
          :: .write R true
          :: (sessionLoop []).1 ∧
      WriteJSONPayload R = Marshal R ++ "\n" ∧
      parseJSON (WriteJSONPayload R) = some (.object
        [("string", .string "server_response"),
         ("content", .string ("You said: " ++ "hello" ++ ". Thanks for the message! - server.")),
         ("timestamp", .number (String.mk (formatInt 1000)))]) ∧
      Unmarshal (WriteJSONPayload R) Message.zero = (R, none) ∧
      findField "string" = some .Type_ ∧
      findField "type" = none ∧
      Unmarshal "\x7b\"type\":\"client_msg\",\"content\":\"hello\",\"timestamp\":1000\x7d" Message.zero = (⟨"", "hello", 1000⟩, none) ∧
      Unmarshal "\x7b\"string\":\"client_msg\",\"content\":\"hello\",\"timestamp\":1000\x7d" Message.zero = (⟨"client_msg", "hello", 1000⟩, none) ∧
      WriteJSONPayload (messageToSend ⟨"client_msg", "hello", 1000⟩) = "\x7b\"string\":\"server_response\",\"content\":\"You said: hello. Thanks for the message! - server.\",\"timestamp\":1000\x7d\n" :=
  ⟨by decide, wire_format "\x7b\"string\":\"client_msg\",\"content\":\"hello\",\"timestamp\":1000\x7d" ⟨"client_msg", "hello", 1000⟩ true [] (by decide)⟩

end Webbsocket
